import Mathlib

/-!
Verification of the uefi-os kernel against its specification.

Shallow embedding of the relevant kernel subsystems:
* the single-producer multi-consumer job queue (`src/src/osca.hpp`, `osca::Jobs`),
* the IDT construction and the AP entry point (`init_idt` / `run_core`),
* the keyboard I/O APIC selection and the MADT parse (`src/src/uefi.cpp`, `efi_main`),
* the bump allocator (`allocate_pages`), `make_heap`, and the page-table
  builder (`map_range` / `get_next_table`).

Machine integers are modelled as `Nat` with explicit `% 2^32` / `% 2^64`
where wrap-around matters.  Bit masks of the form `x & (2^k - 1)` are
written `x % 2^k`, `x & ~(2^k - 1)` is written `x / 2^k * 2^k`, and
`x >> k` is written `x / 2^k`; these are the standard arithmetic readings
of those operations on unsigned integers.  Flag composition keeps the
bitwise `|||`.
-/

/-- `2^32`, the modulus of `u32` arithmetic. -/
def U32 : Nat := 4294967296

/-- `2^64`, the modulus of `u64` arithmetic. -/
def U64 : Nat := 18446744073709551616

/-!
## Job queue (`osca::Jobs<QueueSize>`, src/src/osca.hpp lines 30-185)

State of a `Jobs<N>` object.  Each slot of `queue_` holds a 48-byte payload
together with the runner function pointer; executing a job consists of
calling `entry.func(entry.data)`, so the pair (payload, runner) is modelled
as a single opaque token `datas p : Nat`.  Executed jobs are recorded in
`execLog` in execution order (this is the observable behaviour of
`entry.func(entry.data)`).  `head_`, `tail_`, `state_.submitted` and
`state_.completed` are `u32` fields; all arithmetic on them is mod `2^32`.
-/
structure Jobs where
  seqs : Nat → Nat
  datas : Nat → Nat
  head : Nat
  tail : Nat
  submitted : Nat
  completed : Nat
  execLog : List Nat

/-- `Jobs::init`: slot `i` gets `sequence = i`; counters are zeroed.
The payload bytes are not initialised by the source; they are modelled as
zero here (they are never read before being written by `try_add`). -/
def Jobs.init (N : Nat) : Jobs where
  seqs := fun i => i
  datas := fun _ => 0
  head := 0
  tail := 0
  submitted := 0
  completed := 0
  execLog := []

/-- `Jobs::try_add` (src/src/osca.hpp lines 95-121), as one atomic step:
read `h = head_`, test the slot at `h % N` for `sequence == h`; on failure
return `false` with the state untouched; on success copy the job into the
slot, bump `submitted`, publish `sequence = h + 1` and advance `head_`.
All counter arithmetic is `u32` (mod `2^32`). -/
def Jobs.try_add (N : Nat) (job : Nat) (s : Jobs) : Bool × Jobs :=
  let h := s.head
  if s.seqs (h % N) = h then
    (true,
      { s with
        seqs := fun i => if i = h % N then (h + 1) % U32 else s.seqs i
        datas := fun i => if i = h % N then job else s.datas i
        head := (h + 1) % U32
        submitted := (s.submitted + 1) % U32 })
  else (false, s)

/-- `Jobs::run_next` (src/src/osca.hpp lines 135-164), as one atomic step:
read `t = tail_`, test the slot at `t % N` for `sequence == t + 1`; on
failure return `false`; on success claim the slot (the CAS succeeds in the
atomic-step semantics), execute the job, release `sequence = t + N` and bump
`completed`.  All counter arithmetic is `u32`. -/
def Jobs.run_next (N : Nat) (s : Jobs) : Bool × Jobs :=
  let t := s.tail
  if s.seqs (t % N) = (t + 1) % U32 then
    (true,
      { s with
        seqs := fun i => if i = t % N then (t + N) % U32 else s.seqs i
        tail := (t + 1) % U32
        completed := (s.completed + 1) % U32
        execLog := s.execLog ++ [s.datas (t % N)] })
  else (false, s)

/-- `Jobs::active_count`: `submitted - completed` in `u32` arithmetic. -/
def Jobs.active_count (s : Jobs) : Nat :=
  (s.submitted + U32 - s.completed) % U32

/-- States reachable from `Jobs::init` by producer steps (`try_add`; `add`
is a retry loop around `try_add`) and consumer steps (`run_next`), together
with the list `sub` of jobs successfully submitted so far, in submission
order. -/
inductive Jobs.Reach (N : Nat) : Jobs → List Nat → Prop where
  | init : Jobs.Reach N (Jobs.init N) []
  | add (job : Nat) {s : Jobs} {sub : List Nat} :
      Jobs.Reach N s sub →
      Jobs.Reach N (Jobs.try_add N job s).2
        (if (Jobs.try_add N job s).1 then sub ++ [job] else sub)
  | run {s : Jobs} {sub : List Nat} :
      Jobs.Reach N s sub →
      Jobs.Reach N (Jobs.run_next N s).2 sub

/-- Number of naturals `i < X` with `i % N = p` (for `p < N`):
the number of laps of slot `p` below position `X`. -/
def lapCount (N X p : Nat) : Nat :=
  X / N + (if p < X % N then 1 else 0)

/-- The two-state protocol of slot `p`, against the unbounded counters:
`H` jobs submitted, `T` jobs completed, `sub` the submission list.
Either the slot is producer-owned for lap `lapCount N T p` (every enqueue
into it has been consumed), or it holds the one pending job
`sub[(lapCount N H p - 1) * N + p]`, awaiting consumption. -/
def slotInv (N H T p : Nat) (sub : List Nat) (s : Jobs) : Prop :=
  (lapCount N H p = lapCount N T p ∧
    s.seqs p = (lapCount N T p * N + p) % U32) ∨
  (lapCount N H p = lapCount N T p + 1 ∧
    s.seqs p = ((lapCount N H p - 1) * N + p + 1) % U32 ∧
    s.datas p = sub.getD ((lapCount N H p - 1) * N + p) 0)

/-- The global queue invariant: there is a completion count `T ≤ |sub|`
with `|sub| ≤ T + N`, the `u32` fields are the counters mod `2^32`, the
execution log is exactly the first `T` submitted jobs in order, and every
slot satisfies the two-state protocol. -/
def JobsInv (N : Nat) (s : Jobs) (sub : List Nat) : Prop :=
  ∃ T, T ≤ sub.length ∧ sub.length ≤ T + N ∧
    s.head = sub.length % U32 ∧ s.tail = T % U32 ∧
    s.submitted = sub.length % U32 ∧ s.completed = T % U32 ∧
    s.execLog = sub.take T ∧
    ∀ p, p < N → slotInv N sub.length T p sub s

/-!
## IDT construction (src/unnamed/part_006 lines 518-558 `init_idt`,
lines 621-638 `run_core`)
-/

/-- One 16-byte IDT descriptor (`IDTEntry` in the source). -/
structure IDTEntry where
  low : Nat
  sel : Nat
  ist : Nat
  attr : Nat
  mid : Nat
  high : Nat
  res : Nat
deriving DecidableEq

/-- A zeroed descriptor: the content of the static `idt[256]` array for
every vector that `init_idt` does not populate. -/
def zeroIDTEntry : IDTEntry := ⟨0, 0, 0, 0, 0, 0, 0⟩

/-- The gate descriptor `{u16(addr), 8, 0, 0x8e, u16(addr >> 16),
u32(addr >> 32), 0}` that `init_idt` builds for a handler address. -/
def idtGate (addr : Nat) : IDTEntry :=
  ⟨addr % 65536, 8, 0, 0x8e, addr / 65536 % 65536, addr / 4294967296 % U32, 0⟩

/-- `init_idt`: the populated IDT as a function from vector to descriptor.
Only vector 32 (LAPIC timer) and vector 33 (keyboard) are populated; the
rest of the static zero-initialised `idt[256]` array stays zero.
`timerAddr` and `kbdAddr` are the addresses of `kernel_asm_timer_handler`
and `kernel_asm_keyboard_handler`. -/
def init_idt (timerAddr kbdAddr : Nat) : Nat → IDTEntry := fun v =>
  if v = 32 then idtGate timerAddr
  else if v = 33 then idtGate kbdAddr
  else zeroIDTEntry

/-- The IDT that an application processor loads: `run_core`
(src/unnamed/part_006 lines 621-638) calls `init_gdt()` followed by
`init_idt()`, i.e. the very same IDT construction as the bootstrap core. -/
def run_core_idt (timerAddr kbdAddr : Nat) : Nat → IDTEntry :=
  init_idt timerAddr kbdAddr

/-!
## Keyboard I/O APIC selection (src/src/uefi.cpp lines 255-262)
-/

/-- A `MADT_IOAPIC` entry as collected during the MADT parse (the fields
used afterwards: the MMIO `address` and the `gsi_base`). -/
structure MadtIoApic where
  id : Nat
  address : Nat
  gsi_base : Nat
deriving DecidableEq

/-- The selection loop over the collected I/O APICs:
`for i in 0..count: if keyboard.gsi >= io_apics[i].gsi_base then
apic.io = io_apics[i].address` — no break, so every satisfying entry
overwrites the previous choice.  `0xfec00000` is the default. -/
def selectIoApic (ioApics : List MadtIoApic) (kbdGsi : Nat) : Nat :=
  ioApics.foldl
    (fun acc e => if kbdGsi ≥ e.gsi_base then e.address else acc)
    0xfec00000

/-- Modelled from the spec: "the I/O APIC serving the keyboard is chosen as
the one whose `gsi_base` is the greatest value ≤ `keyboard.gsi`" — among
the satisfying entries, pick the one with the maximal `gsi_base` (first of
the maximal ones), defaulting to `0xfec00000`.  Used only to compare the
spec's words with the source's `selectIoApic`. -/
def specSelectIoApic (ioApics : List MadtIoApic) (kbdGsi : Nat) : Nat :=
  match ioApics.foldl
      (fun acc e =>
        if e.gsi_base ≤ kbdGsi then
          match acc with
          | none => some e
          | some b => if b.gsi_base < e.gsi_base then some e else acc
        else acc)
      none with
  | none => 0xfec00000
  | some e => e.address

/-!
## MADT parse (src/src/uefi.cpp lines 144-253)
-/

/-- A parsed MADT entry, by type byte.  Fields mirror the packed structs in
the source; entries of other types are skipped by the `switch`. -/
inductive MadtEntry where
  | lapic (processorId apicId flags : Nat)
  | ioapic (e : MadtIoApic)
  | iso (bus source gsi flags : Nat)
  | lapicOverride (address : Nat)
  | other

/-- The state built up by the MADT walk: the CoreTable (`kernel::cores`,
capacity 256, written at index `core_count`), `core_count` (a `u8`, so it
wraps mod 256), the bounded I/O APIC scratch list with its counter, the
keyboard configuration and the local APIC address. -/
structure AcpiConfig where
  cores : Nat → Nat
  coreCount : Nat
  ioApics : List MadtIoApic
  ioApicCount : Nat
  kbdGsi : Nat
  kbdFlags : Nat
  lapicAddress : Nat

/-- Defaults before the walk: keyboard GSI 1 with flags 0, LAPIC at
`0xfee00000`, empty CoreTable and I/O APIC list. -/
def acpiDefaults : AcpiConfig where
  cores := fun _ => 0
  coreCount := 0
  ioApics := []
  ioApicCount := 0
  kbdGsi := 1
  kbdFlags := 0
  lapicAddress := 0xfee00000

/-- The MADT entry walk (src/src/uefi.cpp lines 163-249).  `none` models
the `return EFI_ABORTED` taken when more than `MAX_IO_APICS = 8` I/O APICs
are seen.  Type 0 (Local APIC): if `flags & 3` is non-zero (`flags % 4`
here), the `apic_id` is stored at `cores[core_count]` and `core_count`
(`u8`) is incremented — there is no capacity check against
`MAX_CORES = 256`.  Type 2 translates the ACPI polarity/trigger bits into
I/O APIC redirection-entry bits 13 and 15 when `source == 1`. -/
def parseMadt : List MadtEntry → AcpiConfig → Option AcpiConfig
  | [], st => some st
  | MadtEntry.lapic _ apicId flags :: rest, st =>
      if flags % 4 ≠ 0 then
        parseMadt rest
          { st with
            cores := fun i => if i = st.coreCount then apicId else st.cores i
            coreCount := (st.coreCount + 1) % 256 }
      else parseMadt rest st
  | MadtEntry.ioapic e :: rest, st =>
      if 8 ≤ st.ioApicCount then none
      else
        parseMadt rest
          { st with
            ioApics := st.ioApics ++ [e]
            ioApicCount := st.ioApicCount + 1 }
  | MadtEntry.iso _ source gsi flags :: rest, st =>
      if source = 1 then
        parseMadt rest
          { st with
            kbdGsi := gsi
            kbdFlags :=
              (if flags % 4 = 3 then 8192 else 0) +
              (if flags / 4 % 4 = 3 then 32768 else 0) }
      else parseMadt rest st
  | MadtEntry.lapicOverride address :: rest, st =>
      parseMadt rest { st with lapicAddress := address }
  | MadtEntry.other :: rest, st => parseMadt rest st

/-!
## Bump allocator (src/unnamed/part_006 lines 180-194 `allocate_pages`)
-/

/-- The kernel heap descriptor (`struct Heap { void* start; u64 size; }`). -/
structure Heap where
  start : Nat
  size : Nat
deriving DecidableEq

/-- The allocator's view of the machine: the heap descriptor plus a
byte-addressed memory (only the bytes the allocator zeroes matter here). -/
structure AllocState where
  heap : Heap
  mem : Nat → Nat

/-- `allocate_pages(num_pages)`: `bytes = num_pages * 4096` in `u64`
arithmetic; `none` models the fatal `panic(0xffff0000)` taken when
`heap.size < bytes` (the heap is left untouched by the panic path);
otherwise the old `heap.start` is returned, the block is zeroed with
`memset`, `heap.start` advances by `bytes` and `heap.size` shrinks by
`bytes`. -/
def allocate_pages (numPages : Nat) (s : AllocState) : Option (Nat × AllocState) :=
  let bytes := numPages * 4096 % U64
  if s.heap.size < bytes then none
  else
    some (s.heap.start,
      { heap := { start := s.heap.start + bytes, size := s.heap.size - bytes }
        mem := fun a =>
          if s.heap.start ≤ a ∧ a < s.heap.start + bytes then 0 else s.mem a })

/-!
## Heap discovery (src/unnamed/part_006 lines 146-177 `make_heap`)
-/

/-- One UEFI memory descriptor (the fields `make_heap` reads). -/
structure MemDesc where
  type : Nat
  physicalStart : Nat
  numberOfPages : Nat
deriving DecidableEq

/-- `EfiConventionalMemory`. -/
def EfiConventionalMemory : Nat := 7

/-- The scan state of `make_heap`: `(largest_chunk_size, aligned_start,
aligned_size)`. -/
def make_heap_step (acc : Nat × Nat × Nat) (d : MemDesc) : Nat × Nat × Nat :=
  if d.type = EfiConventionalMemory then
    let chunkStart := d.physicalStart
    let chunkSize := d.numberOfPages * 4096 % U64
    if acc.1 < chunkSize then
      (chunkSize,
        (chunkStart + 4095) % U64 / 4096 * 4096,
        (chunkSize + 4095) % U64 / 4096 * 4096)
    else acc
  else acc

/-- `make_heap`: scan the memory descriptors for the largest
`EfiConventionalMemory` chunk, aligning `(chunk_start + 4095) & ~4095` and
`(chunk_size + 4095) & ~4095`, and return `{aligned_start, aligned_size}`
(zero if no conventional chunk was seen). -/
def make_heap (descs : List MemDesc) : Heap :=
  { start := (descs.foldl make_heap_step (0, 0, 0)).2.1
    size := (descs.foldl make_heap_step (0, 0, 0)).2.2 }

/-!
## Page-table builder (src/unnamed/part_006 lines 199-296)
-/

/-- The machine state seen by the paging code: `mem a` is the 64-bit word
stored at byte address `a` (the code only ever accesses words at 8-byte
aligned addresses inside page tables), plus the bump-allocator heap
cursor. -/
structure PageState where
  mem : Nat → Nat
  heapStart : Nat
  heapSize : Nat

/-- Store a 64-bit word. -/
def setMem (s : PageState) (a v : Nat) : PageState :=
  { s with mem := fun x => if x = a then v else s.mem x }

/-- `allocate_pages(1)` as invoked by `get_next_table`: `none` is the fatal
out-of-memory panic; otherwise the returned page (the old `heap.start`) is
zeroed and the heap cursor advances one page. -/
def allocate_page (s : PageState) : Option (Nat × PageState) :=
  if s.heapSize < 4096 then none
  else
    some (s.heapStart,
      { mem := fun a =>
          if s.heapStart ≤ a ∧ a < s.heapStart + 4096 then 0 else s.mem a
        heapStart := s.heapStart + 4096
        heapSize := s.heapSize - 4096 })

/-- `get_next_table(table, index)` (src/unnamed/part_006 lines 199-211):
if bit 0 (present) of `table[index]` is clear, allocate a zeroed page and
link it with `table[index] = uptr(next) | 3`; return
`table[index] & ~0xfff` (written `/ 4096 * 4096`), the base of the next
level.  Entries are 64-bit words at `table + 8 * index`. -/
def get_next_table (table idx : Nat) (s : PageState) : Option (Nat × PageState) :=
  if s.mem (table + 8 * idx) % 2 = 1 then
    some (s.mem (table + 8 * idx) / 4096 * 4096, s)
  else
    match allocate_page s with
    | none => none
    | some (next, s1) =>
        some (next / 4096 * 4096,
          setMem s1 (table + 8 * idx) (next ||| 3))

/-- `PAGE_PS` (bit 7). -/
def PAGE_PS : Nat := 128

/-- `USE_PAT_WC` (bit 12), the software write-combining request flag. -/
def USE_PAT_WC : Nat := 4096

/-- `PAGE_PAT_4KB` (bit 7), the PAT bit position in a 4 KiB PTE. -/
def PAGE_PAT_4KB : Nat := 128

/-- The body of `map_range`'s `while (addr < end)` loop
(src/unnamed/part_006 lines 255-295), with an explicit fuel so the
recursion is structural; `map_range` supplies enough fuel for the loop to
run to completion (each iteration advances `addr` by at least 4096).
`pml4` is the address of `long_mode_pml4`.  The virtual-address fields
`(addr >> 39) & 0x1ff` etc. are written `addr / 2^39 % 512`.  A huge page
is used when `addr` is 2 MiB aligned and at least 2 MiB remain; otherwise
the walk descends to the PT level, moving the write-combining PAT bit from
bit 12 to bit 7 (`entry_flags &= ~USE_PAT_WC; entry_flags |= PAGE_PAT_4KB`,
the clear written as `&&& 0xffffffffffffefff`). -/
def map_loop (pml4 flags endA : Nat) : Nat → Nat → PageState → Option PageState
  | 0, _, _ => none
  | fuel + 1, addr, s =>
    if addr < endA then
      match get_next_table pml4 (addr / 549755813888 % 512) s with
      | none => none
      | some (pdp, s1) =>
        match get_next_table pdp (addr / 1073741824 % 512) s1 with
        | none => none
        | some (pd, s2) =>
          if addr % 2097152 = 0 ∧ 2097152 ≤ endA - addr then
            map_loop pml4 flags endA fuel (addr + 2097152)
              (setMem s2 (pd + 8 * (addr / 2097152 % 512))
                (addr ||| (flags ||| PAGE_PS)))
          else
            match get_next_table pd (addr / 2097152 % 512) s2 with
            | none => none
            | some (pt, s3) =>
              map_loop pml4 flags endA fuel (addr + 4096)
                (setMem s3 (pt + 8 * (addr / 4096 % 512))
                  (addr |||
                    (if flags &&& USE_PAT_WC ≠ 0 then
                      (flags &&& 18446744073709547519) ||| PAGE_PAT_4KB
                    else flags)))
    else some s

/-- `map_range(phys, size, flags)`: align `addr = phys & ~0xfff` down and
`end = (phys + size + 4095) & ~0xfff` up (the sum is `u64` arithmetic),
then run the mapping loop. -/
def map_range (pml4 : Nat) (phys size flags : Nat) (s : PageState) :
    Option PageState :=
  let addr := phys / 4096 * 4096
  let endA := (phys + size + 4095) % U64 / 4096 * 4096
  map_loop pml4 flags endA ((endA - addr) / 4096 + 1) addr s

/-!
### Well-formedness of the page-table forest

Verification-side description of the page tables reachable from
`long_mode_pml4` in a machine state: which PML4 slots hold links to which
PDPTs, and so on.  Slots are keyed linearly: a PDPT slot by
`p = addr / 2^30`, a PD slot by `q = addr / 2^21`, a PT slot by
`pg = addr / 2^12`.  `l1 q` is the PT linked from PD slot `q`, `hv q` a
registered huge-page leaf value at PD slot `q`, `lv pg` a registered leaf
value at PT slot `pg`.
-/
structure Forest where
  l3 : Nat → Option Nat
  l2 : Nat → Option Nat
  l1 : Nat → Option Nat
  hv : Nat → Option Nat
  lv : Nat → Option Nat

/-- A node of the forest, for stating injectivity of table bases. -/
inductive TPath where
  | root
  | p3 (i4 : Nat)
  | p2 (p : Nat)
  | p1 (q : Nat)
deriving DecidableEq

/-- The table base registered at a node. -/
def Forest.base? (f : Forest) (pml4 : Nat) : TPath → Option Nat
  | TPath.root => some pml4
  | TPath.p3 i4 => f.l3 i4
  | TPath.p2 p => f.l2 p
  | TPath.p1 q => f.l1 q

/-- The forest `f` describes machine state `s` with root table `pml4`:
all registered tables are page-aligned, mutually disjoint, below the heap
cursor, and the page-table entries of `s` agree with the forest: a slot
with a registered child holds `child | 3`, a slot with a registered leaf
holds the registered value, and an unregistered link slot is non-present.
-/
structure WF (pml4 : Nat) (f : Forest) (s : PageState) : Prop where
  root_align : 4096 ∣ pml4
  heap_align : 4096 ∣ s.heapStart
  root_disj : pml4 + 4096 ≤ s.heapStart ∨ s.heapStart + s.heapSize ≤ pml4
  base_align : ∀ p b, f.base? pml4 p = some b → 4096 ∣ b
  sub_lt : ∀ p b, p ≠ TPath.root → f.base? pml4 p = some b →
    b + 4096 ≤ s.heapStart
  inj : ∀ p q b, f.base? pml4 p = some b → f.base? pml4 q = some b → p = q
  dom3 : ∀ i4, f.l3 i4 ≠ none → i4 < 512
  dom2 : ∀ p, f.l2 p ≠ none → p < 262144 ∧ f.l3 (p / 512) ≠ none
  dom1 : ∀ q, f.l1 q ≠ none ∨ f.hv q ≠ none →
    q < 134217728 ∧ f.l2 (q / 512) ≠ none
  hv_l1 : ∀ q, f.hv q ≠ none → f.l1 q = none
  dom0 : ∀ pg, f.lv pg ≠ none → pg < 68719476736 ∧ f.l1 (pg / 512) ≠ none
  ent3 : ∀ i4, i4 < 512 →
    (f.l3 i4 = none → s.mem (pml4 + 8 * i4) % 2 = 0) ∧
    (∀ b3, f.l3 i4 = some b3 → s.mem (pml4 + 8 * i4) = b3 ||| 3)
  ent2 : ∀ p, p < 262144 → ∀ b3, f.l3 (p / 512) = some b3 →
    (f.l2 p = none → s.mem (b3 + 8 * (p % 512)) % 2 = 0) ∧
    (∀ b2, f.l2 p = some b2 → s.mem (b3 + 8 * (p % 512)) = b2 ||| 3)
  ent1 : ∀ q, q < 134217728 → ∀ b2, f.l2 (q / 512) = some b2 →
    (f.l1 q = none → f.hv q = none → s.mem (b2 + 8 * (q % 512)) % 2 = 0) ∧
    (∀ b1, f.l1 q = some b1 → s.mem (b2 + 8 * (q % 512)) = b1 ||| 3) ∧
    (∀ v, f.hv q = some v → s.mem (b2 + 8 * (q % 512)) = v)
  ent0 : ∀ pg b1 v, f.l1 (pg / 512) = some b1 → f.lv pg = some v →
    s.mem (b1 + 8 * (pg % 512)) = v

/-- The run from `addr0` to `endA` does not 4 KiB-map any 2 MiB region that
carries a registered huge-page leaf: every address the loop would process
with the 4 KiB branch (i.e. that fails the loop's own huge-page test
`a % 2MiB = 0 ∧ 2MiB ≤ endA - a`) sits in a PD slot with no registered
huge leaf.  Re-mapping a huge page with 4 KiB granularity is the
conflicting-remap case the specification declares out of scope. -/
def Compat (f : Forest) (addr0 endA : Nat) : Prop :=
  ∀ a, addr0 ≤ a → a < endA → ¬(a % 2097152 = 0 ∧ 2097152 ≤ endA - a) →
    f.hv (a / 2097152) = none

/-- Link monotonicity: registered PML4/PDPT links never change. -/
def Mono (f fNew : Forest) : Prop :=
  (∀ i4 b, f.l3 i4 = some b → fNew.l3 i4 = some b) ∧
  (∀ p b, f.l2 p = some b → fNew.l2 p = some b)

/-- What a run of the loop starting at `addr0` leaves untouched:
PD slots of regions beginning below `addr0` keep their PT links and their
huge-leaf registrations, and PT slots of pages below `addr0` keep their
leaf registrations. -/
def FrameLow (addr0 : Nat) (f fNew : Forest) : Prop :=
  (∀ q b, q * 2097152 < addr0 → f.l1 q = some b → fNew.l1 q = some b) ∧
  (∀ q, q * 2097152 < addr0 → fNew.hv q = f.hv q) ∧
  (∀ pg v, pg * 4096 < addr0 → f.lv pg = some v → fNew.lv pg = some v)

/-!
# Theorems
-/

/-! ## Claim C10: failure of `try_add` is atomic -/

/-- Claim C10: whenever `try_add` returns `false`, the queue state is
completely unchanged — `head`, `tail`, `submitted`, `completed` and every
slot's payload, runner and sequence number are exactly as before the call
(the failed call performs no write at all). -/
theorem try_add_fail_atomic (N job : Nat) (s : Jobs)
    (h : (Jobs.try_add N job s).1 = false) :
    (Jobs.try_add N job s).2 = s ∧
    (Jobs.try_add N job s).2.head = s.head ∧
    (Jobs.try_add N job s).2.tail = s.tail ∧
    (Jobs.try_add N job s).2.submitted = s.submitted ∧
    (Jobs.try_add N job s).2.completed = s.completed ∧
    (∀ p, (Jobs.try_add N job s).2.seqs p = s.seqs p) ∧
    (∀ p, (Jobs.try_add N job s).2.datas p = s.datas p) := by
  unfold Jobs.try_add at *
  by_cases hc : s.seqs (s.head % N) = s.head
  · simp [hc] at h
  · simp [hc]

/-- Witness for C10 at a concrete state whose head slot is not free. -/
theorem try_add_fail_atomic_witness :
    (Jobs.try_add 2 3 ⟨fun _ => 5, fun _ => 0, 0, 0, 0, 0, []⟩).1 = false ∧
    (Jobs.try_add 2 3 ⟨fun _ => 5, fun _ => 0, 0, 0, 0, 0, []⟩).2 =
      ⟨fun _ => 5, fun _ => 0, 0, 0, 0, 0, []⟩ :=
  ⟨rfl,
    (try_add_fail_atomic 2 3 ⟨fun _ => 5, fun _ => 0, 0, 0, 0, 0, []⟩ rfl).1⟩

/-! ## Claim C4: the IDT loaded by application processors -/

/-- Counterexample to claim C4: the IDT that `run_core` loads on an
application processor is not empty — `run_core` calls the same `init_idt`
as the bootstrap core, so vector 32 (timer) and vector 33 (keyboard) are
populated 64-bit interrupt gates (`attr = 0x8e`, selector 8), whatever the
handler addresses are (instantiated at address 0 here). -/
theorem run_core_idt_not_empty :
    run_core_idt 0 0 32 ≠ zeroIDTEntry ∧
    (run_core_idt 0 0 32).attr = 0x8e ∧
    (run_core_idt 0 0 33).attr = 0x8e ∧
    (run_core_idt 0 0 33).sel = 8 := by
  refine ⟨by decide, rfl, rfl, rfl⟩

/-- Claim C4 as amended: every application processor, on entering
`run_core`, installs exactly the same IDT as the bootstrap core (it calls
`init_idt`), in which precisely the timer gate (vector 32) and the keyboard
gate (vector 33) are populated and the remaining 254 descriptors are zero.
-/
theorem run_core_idt_same_as_bsp (ta ka v : Nat) (h32 : v ≠ 32) (h33 : v ≠ 33) :
    run_core_idt ta ka = init_idt ta ka ∧
    run_core_idt ta ka v = zeroIDTEntry ∧
    run_core_idt ta ka 32 = idtGate ta ∧
    run_core_idt ta ka 33 = idtGate ka ∧
    (run_core_idt ta ka 32).attr = 0x8e ∧
    (run_core_idt ta ka 33).attr = 0x8e := by
  refine ⟨rfl, ?_, by simp [run_core_idt, init_idt, idtGate], rfl, rfl, rfl⟩
  simp [run_core_idt, init_idt, h32, h33]

/-- Witness for the amended C4 at vector 0 and handler addresses 1, 2. -/
theorem run_core_idt_same_as_bsp_witness :
    ((0 : Nat) ≠ 32 ∧ (0 : Nat) ≠ 33) ∧
    (run_core_idt 1 2 0 = zeroIDTEntry ∧ run_core_idt 1 2 32 = idtGate 1) :=
  ⟨⟨by decide, by decide⟩,
    ⟨(run_core_idt_same_as_bsp 1 2 0 (by decide) (by decide)).2.1,
      (run_core_idt_same_as_bsp 1 2 0 (by decide) (by decide)).2.2.1⟩⟩

/-! ## Claim C5: keyboard I/O APIC selection -/

/-- Counterexample to claim C5: with the I/O APIC list
`[{gsi_base 1, address 1}, {gsi_base 0, address 2}]` and keyboard GSI 1,
the source loop (no `break`, later matches overwrite earlier ones) selects
address 2 — the last entry with `gsi_base ≤ gsi` — whereas the entry whose
`gsi_base` is the greatest value `≤ 1` is the first one, address 1. -/
theorem selectIoApic_not_greatest :
    selectIoApic [⟨1, 1, 1⟩, ⟨2, 2, 0⟩] 1 = 2 ∧
    specSelectIoApic [⟨1, 1, 1⟩, ⟨2, 2, 0⟩] 1 = 1 ∧
    selectIoApic [⟨1, 1, 1⟩, ⟨2, 2, 0⟩] 1 ≠
      specSelectIoApic [⟨1, 1, 1⟩, ⟨2, 2, 0⟩] 1 :=
  ⟨rfl, rfl, by decide⟩

theorem selectIoApic_foldl_aux (g : Nat) (l : List MadtIoApic) :
    ∀ acc, l.foldl (fun acc e => if g ≥ e.gsi_base then e.address else acc) acc =
      ((l.reverse.find? (fun e => decide (e.gsi_base ≤ g))).map
        MadtIoApic.address).getD acc := by
  induction l with
  | nil => intro acc; rfl
  | cons e l ih =>
    intro acc
    simp only [List.foldl_cons, List.reverse_cons, List.find?_append]
    rw [ih]
    cases hf : l.reverse.find? (fun e => decide (e.gsi_base ≤ g)) with
    | some a => simp [hf]
    | none =>
      simp only [hf, Option.none_or, Option.map_none, Option.getD_none]
      by_cases hb : e.gsi_base ≤ g
      · simp [List.find?, hb, Nat.le_of_lt, ge_iff_le]
      · simp [List.find?, hb, ge_iff_le]

/-- Claim C5 as amended: the I/O APIC selected to serve the keyboard is the
last entry in MADT order whose `gsi_base ≤ keyboard.gsi` (the default
`0xfec00000` when no entry satisfies this) — not the entry with the
greatest such `gsi_base`. -/
theorem selectIoApic_eq_last_match (ioApics : List MadtIoApic) (g : Nat) :
    selectIoApic ioApics g =
      ((ioApics.reverse.find? (fun e => decide (e.gsi_base ≤ g))).map
        MadtIoApic.address).getD 0xfec00000 :=
  selectIoApic_foldl_aux g ioApics 0xfec00000

/-! ## Claim C6: CoreTable capacity handling in the MADT parse -/

set_option maxRecDepth 20000 in
/-- Supporting theorem for the C6 code bug: feeding the MADT walk 257
enabled Local APIC entries (one more than the CoreTable capacity 256) does
not abort — the parse completes (`some`), and the `u8` `core_count` has
wrapped around to 1, silently overwriting CoreTable entry 0. -/
theorem parseMadt_overflow_wraps :
    256 < 257 ∧
    (parseMadt (List.replicate 257 (MadtEntry.lapic 0 7 1)) acpiDefaults).map
      (fun st => st.coreCount) = some 1 := by
  exact ⟨by decide, by rfl⟩

/-! ## Claim C7: the bump allocator's contract -/

/-- Counterexample to claim C7 as stated: `bytes = num_pages * 4096` is a
`u64` multiplication, so for `n = 2^52` it wraps to 0; mathematically
`n * 4096 = 2^64` exceeds any heap size, yet `allocate_pages` does not
panic — it succeeds (allocating nothing) even on an empty heap. -/
theorem allocate_pages_overflow_no_panic :
    2 ^ 52 * 4096 > (0 : Nat) ∧
    (allocate_pages (2 ^ 52) ⟨⟨0, 0⟩, fun _ => 0⟩).isSome = true :=
  ⟨by decide, rfl⟩

/-- Claim C7 as amended: for every `n` with `n * 4096 < 2^64` (no `u64`
overflow in `bytes`), if `n * 4096 > heap.size` then `allocate_pages n`
panics (modelled `none`; the panic path performs no write to the heap);
otherwise it returns the old `heap.start` — a zeroed block of `n` pages,
4 KiB-aligned whenever `heap.start` is — advances `heap.start` by
`n * 4096` and decreases `heap.size` by `n * 4096`, so
`heap.start + heap.size` is unchanged by every successful call; with
`n * 4096` exactly `heap.size` it succeeds and leaves `heap.size = 0`. -/
theorem allocate_pages_spec (n : Nat) (s : AllocState) (hn : n * 4096 < U64) :
    (n * 4096 > s.heap.size → allocate_pages n s = none) ∧
    (n * 4096 ≤ s.heap.size →
      ∃ s2, allocate_pages n s = some (s.heap.start, s2) ∧
        s2.heap.start = s.heap.start + n * 4096 ∧
        s2.heap.size = s.heap.size - n * 4096 ∧
        s2.heap.start + s2.heap.size = s.heap.start + s.heap.size ∧
        (∀ a, s.heap.start ≤ a → a < s.heap.start + n * 4096 → s2.mem a = 0) ∧
        (4096 ∣ s.heap.start → 4096 ∣ s.heap.start ∧ 4096 ∣ s2.heap.start) ∧
        (n * 4096 = s.heap.size → s2.heap.size = 0)) := by
  have hb : n * 4096 % U64 = n * 4096 := Nat.mod_eq_of_lt hn
  constructor
  · intro hgt
    unfold allocate_pages
    rw [hb]
    have hc : s.heap.size < n * 4096 := hgt
    simp [hc]
  · intro hle
    unfold allocate_pages
    rw [hb]
    have hc : ¬s.heap.size < n * 4096 := by omega
    simp only [hc, if_false]
    refine ⟨_, rfl, rfl, rfl, by simp; omega, ?_, ?_, ?_⟩
    · intro a ha1 ha2
      simp [ha1, ha2]
    · intro hal
      exact ⟨hal, by simpa using Nat.dvd_add hal ⟨n, by ring⟩⟩
    · intro heq
      simp [heq]

/-- Witness for the amended C7: one page from a heap of two pages. -/
theorem allocate_pages_spec_witness :
    (1 * 4096 < U64 ∧ 1 * 4096 ≤ 8192) ∧
    (∃ s2, allocate_pages 1 ⟨⟨4096, 8192⟩, fun _ => 7⟩ = some (4096, s2) ∧
      s2.heap.start = 4096 + 1 * 4096 ∧
      s2.heap.size = 8192 - 1 * 4096 ∧
      s2.heap.start + s2.heap.size = 4096 + 8192 ∧
      (∀ a, 4096 ≤ a → a < 4096 + 1 * 4096 → s2.mem a = 0) ∧
      (4096 ∣ 4096 → 4096 ∣ 4096 ∧ 4096 ∣ s2.heap.start) ∧
      (1 * 4096 = 8192 → s2.heap.size = 0)) :=
  ⟨⟨by decide, by decide⟩,
    (allocate_pages_spec 1 ⟨⟨4096, 8192⟩, fun _ => 7⟩ (by decide)).2 (by decide)⟩

/-! ## Claim C8: `make_heap` selects the largest conventional region -/

theorem make_heap_foldl (l : List MemDesc) :
    ∀ acc : Nat × Nat × Nat,
      (l.foldl make_heap_step acc = acc ∧
        ∀ d ∈ l, d.type = EfiConventionalMemory →
          d.numberOfPages * 4096 % U64 ≤ acc.1) ∨
      (∃ d ∈ l, d.type = EfiConventionalMemory ∧
        acc.1 < d.numberOfPages * 4096 % U64 ∧
        l.foldl make_heap_step acc =
          (d.numberOfPages * 4096 % U64,
            (d.physicalStart + 4095) % U64 / 4096 * 4096,
            (d.numberOfPages * 4096 % U64 + 4095) % U64 / 4096 * 4096) ∧
        ∀ d2 ∈ l, d2.type = EfiConventionalMemory →
          d2.numberOfPages * 4096 % U64 ≤ d.numberOfPages * 4096 % U64) := by
  induction l with
  | nil => intro acc; exact Or.inl ⟨rfl, by simp⟩
  | cons d l ih =>
    intro acc
    by_cases ht : d.type = EfiConventionalMemory
    · by_cases hlt : acc.1 < d.numberOfPages * 4096 % U64
      · have hstep : make_heap_step acc d =
            (d.numberOfPages * 4096 % U64,
              (d.physicalStart + 4095) % U64 / 4096 * 4096,
              (d.numberOfPages * 4096 % U64 + 4095) % U64 / 4096 * 4096) := by
          simp [make_heap_step, ht, hlt]
        rcases ih (make_heap_step acc d) with ⟨hres, hbound⟩ | ⟨d2, hd2, ht2, hlt2, hres2, hb2⟩
        · refine Or.inr ⟨d, List.mem_cons_self d l, ht, hlt, ?_, ?_⟩
          · rw [List.foldl_cons, hres, hstep]
          · intro d2 hd2 ht2
            rcases List.mem_cons.mp hd2 with rfl | hd2
            · exact Nat.le_refl _
            · have := hbound d2 hd2 ht2
              rw [hstep] at this
              exact this
        · rw [hstep] at hlt2
          refine Or.inr ⟨d2, List.mem_cons_of_mem d hd2, ht2, ?_, ?_, ?_⟩
          · omega
          · rw [List.foldl_cons]; exact hres2
          · intro d3 hd3 ht3
            rcases List.mem_cons.mp hd3 with rfl | hd3
            · omega
            · exact hb2 d3 hd3 ht3
      · have hstep : make_heap_step acc d = acc := by
          simp [make_heap_step, ht, hlt]
        rcases ih acc with ⟨hres, hbound⟩ | ⟨d2, hd2, ht2, hlt2, hres2, hb2⟩
        · refine Or.inl ⟨by rw [List.foldl_cons, hstep]; exact hres, ?_⟩
          intro d2 hd2 ht2
          rcases List.mem_cons.mp hd2 with rfl | hd2
          · omega
          · exact hbound d2 hd2 ht2
        · refine Or.inr ⟨d2, List.mem_cons_of_mem d hd2, ht2, hlt2,
            by rw [List.foldl_cons, hstep]; exact hres2, ?_⟩
          intro d3 hd3 ht3
          rcases List.mem_cons.mp hd3 with rfl | hd3
          · omega
          · exact hb2 d3 hd3 ht3
    · have hstep : make_heap_step acc d = acc := by
        simp [make_heap_step, ht]
      rcases ih acc with ⟨hres, hbound⟩ | ⟨d2, hd2, ht2, hlt2, hres2, hb2⟩
      · refine Or.inl ⟨by rw [List.foldl_cons, hstep]; exact hres, ?_⟩
        intro d2 hd2 ht2
        rcases List.mem_cons.mp hd2 with rfl | hd2
        · exact absurd ht2 ht
        · exact hbound d2 hd2 ht2
      · refine Or.inr ⟨d2, List.mem_cons_of_mem d hd2, ht2, hlt2,
          by rw [List.foldl_cons, hstep]; exact hres2, ?_⟩
        intro d3 hd3 ht3
        rcases List.mem_cons.mp hd3 with rfl | hd3
        · exact absurd ht3 ht
        · exact hb2 d3 hd3 ht3

theorem align_up_of_dvd {x : Nat} (h : 4096 ∣ x) : (x + 4095) / 4096 * 4096 = x := by
  rcases h with ⟨k, rfl⟩
  rw [Nat.add_comm, Nat.add_mul_div_left 4095 k (by omega)]
  have h0 : 4095 / 4096 = 0 := Nat.div_eq_of_lt (by omega)
  rw [h0]
  omega

/-- Claim C8: on a UEFI memory map — every `EfiConventionalMemory`
descriptor has a 4 KiB-aligned `PhysicalStart` (a UEFI guarantee) and a
size below `2^64` — `make_heap` picks a largest conventional region and
returns a heap whose start is that region's start rounded up to a 4 KiB
boundary, whose end (`start + size`) is the region's end rounded down to a
4 KiB boundary, and which lies entirely inside the region. -/
theorem make_heap_spec (descs : List MemDesc)
    (hal : ∀ d ∈ descs, d.type = EfiConventionalMemory →
      4096 ∣ d.physicalStart ∧
      d.physicalStart + d.numberOfPages * 4096 < U64)
    (hex : ∃ d ∈ descs, d.type = EfiConventionalMemory ∧ 0 < d.numberOfPages) :
    ∃ d ∈ descs, d.type = EfiConventionalMemory ∧
      (∀ d2 ∈ descs, d2.type = EfiConventionalMemory →
        d2.numberOfPages * 4096 ≤ d.numberOfPages * 4096) ∧
      (make_heap descs).start = (d.physicalStart + 4095) / 4096 * 4096 ∧
      (make_heap descs).start + (make_heap descs).size =
        (d.physicalStart + d.numberOfPages * 4096) / 4096 * 4096 ∧
      d.physicalStart ≤ (make_heap descs).start ∧
      (make_heap descs).start + (make_heap descs).size ≤
        d.physicalStart + d.numberOfPages * 4096 := by
  rcases make_heap_foldl descs (0, 0, 0) with ⟨_, hbound⟩ | ⟨d, hd, ht, _, hres, hb⟩
  · exfalso
    rcases hex with ⟨d, hd, ht, hpos⟩
    have h1 := hbound d hd ht
    have h2 := (hal d hd ht).2
    have hsz : d.numberOfPages * 4096 % U64 = d.numberOfPages * 4096 :=
      Nat.mod_eq_of_lt (by omega)
    omega
  · have hda := hal d hd ht
    have hszlt : d.numberOfPages * 4096 < U64 := by omega
    have hsz : d.numberOfPages * 4096 % U64 = d.numberOfPages * 4096 :=
      Nat.mod_eq_of_lt hszlt
    have hpos : 0 < d.numberOfPages := by
      rcases hex with ⟨d0, hd0, ht0, hpos0⟩
      have h1 := hb d0 hd0 ht0
      have h2 := (hal d0 hd0 ht0).2
      have hsz0 : d0.numberOfPages * 4096 % U64 = d0.numberOfPages * 4096 :=
        Nat.mod_eq_of_lt (by omega)
      by_contra hz
      simp at hz
      rw [hsz, hz] at h1
      simp at h1
      omega
    have hstlt : d.physicalStart + 4095 < U64 := by
      have : 4096 ≤ d.numberOfPages * 4096 := by
        have := Nat.mul_le_mul_right 4096 hpos
        simpa using this
      omega
    have hst : (d.physicalStart + 4095) % U64 = d.physicalStart + 4095 :=
      Nat.mod_eq_of_lt hstlt
    have hchlt : d.numberOfPages * 4096 + 4095 < U64 := by
      have hU : U64 = 18446744073709551616 := rfl
      omega
    have hch : (d.numberOfPages * 4096 % U64 + 4095) % U64 =
        d.numberOfPages * 4096 + 4095 := by
      rw [hsz]; exact Nat.mod_eq_of_lt hchlt
    have hstart : (make_heap descs).start = (d.physicalStart + 4095) / 4096 * 4096 := by
      show (descs.foldl make_heap_step (0, 0, 0)).2.1 = _
      rw [hres]
      show (d.physicalStart + 4095) % U64 / 4096 * 4096 = _
      rw [hst]
    have hsize : (make_heap descs).size = d.numberOfPages * 4096 := by
      show (descs.foldl make_heap_step (0, 0, 0)).2.2 = _
      rw [hres]
      show (d.numberOfPages * 4096 % U64 + 4095) % U64 / 4096 * 4096 = _
      rw [hch]
      exact align_up_of_dvd ⟨d.numberOfPages, by ring⟩
    have hstv : (make_heap descs).start = d.physicalStart := by
      rw [hstart, align_up_of_dvd hda.1]
    refine ⟨d, hd, ht, ?_, hstart, ?_, ?_, ?_⟩
    · intro d2 hd2 ht2
      have h1 := hb d2 hd2 ht2
      have h2 := (hal d2 hd2 ht2).2
      have hs2 : d2.numberOfPages * 4096 % U64 = d2.numberOfPages * 4096 :=
        Nat.mod_eq_of_lt (by omega)
      omega
    · rw [hstv, hsize]
      have hdv : 4096 ∣ d.physicalStart + d.numberOfPages * 4096 :=
        Nat.dvd_add hda.1 ⟨d.numberOfPages, by ring⟩
      exact (Nat.div_mul_cancel hdv).symm
    · rw [hstv]
    · rw [hstv, hsize]

/-- Witness for C8 on a concrete memory map: three descriptors, two
conventional, the first conventional one the largest. -/
theorem make_heap_spec_witness :
    ((∀ d ∈ [MemDesc.mk 7 4096 2, MemDesc.mk 3 0 100, MemDesc.mk 7 65536 1],
        d.type = EfiConventionalMemory →
        4096 ∣ d.physicalStart ∧
        d.physicalStart + d.numberOfPages * 4096 < U64) ∧
      (∃ d ∈ [MemDesc.mk 7 4096 2, MemDesc.mk 3 0 100, MemDesc.mk 7 65536 1],
        d.type = EfiConventionalMemory ∧ 0 < d.numberOfPages)) ∧
    (∃ d ∈ [MemDesc.mk 7 4096 2, MemDesc.mk 3 0 100, MemDesc.mk 7 65536 1],
      d.type = EfiConventionalMemory ∧
      (∀ d2 ∈ [MemDesc.mk 7 4096 2, MemDesc.mk 3 0 100, MemDesc.mk 7 65536 1],
        d2.type = EfiConventionalMemory →
        d2.numberOfPages * 4096 ≤ d.numberOfPages * 4096) ∧
      (make_heap [MemDesc.mk 7 4096 2, MemDesc.mk 3 0 100,
        MemDesc.mk 7 65536 1]).start = (d.physicalStart + 4095) / 4096 * 4096 ∧
      (make_heap [MemDesc.mk 7 4096 2, MemDesc.mk 3 0 100,
          MemDesc.mk 7 65536 1]).start +
        (make_heap [MemDesc.mk 7 4096 2, MemDesc.mk 3 0 100,
          MemDesc.mk 7 65536 1]).size =
        (d.physicalStart + d.numberOfPages * 4096) / 4096 * 4096 ∧
      d.physicalStart ≤ (make_heap [MemDesc.mk 7 4096 2, MemDesc.mk 3 0 100,
        MemDesc.mk 7 65536 1]).start ∧
      (make_heap [MemDesc.mk 7 4096 2, MemDesc.mk 3 0 100,
          MemDesc.mk 7 65536 1]).start +
        (make_heap [MemDesc.mk 7 4096 2, MemDesc.mk 3 0 100,
          MemDesc.mk 7 65536 1]).size ≤
        d.physicalStart + d.numberOfPages * 4096) :=
  ⟨⟨by decide, by decide⟩,
    make_heap_spec [MemDesc.mk 7 4096 2, MemDesc.mk 3 0 100, MemDesc.mk 7 65536 1]
      (by decide) (by decide)⟩

/-! ## The job-queue invariant (claims C1, C2, C3) -/

theorem u32_shift_mod (x y : Nat) : (x % U32 + y) % U32 = (x + y) % U32 := by
  simp only [U32]; omega

theorem u32_mod_ne {a b : Nat} (h1 : a < b) (h2 : b - a < U32) :
    a % U32 ≠ b % U32 := by
  simp only [U32] at *; omega

theorem take_append_le (l l2 : List Nat) (T : Nat) (h : T ≤ l.length) :
    (l ++ l2).take T = l.take T := by
  induction l generalizing T with
  | nil =>
    simp at h
    simp [h]
  | cons a l ih =>
    cases T with
    | zero => simp
    | succ t =>
      simp only [List.cons_append, List.take_succ_cons]
      rw [ih]
      simpa using h

theorem getD_append_self (l : List Nat) (x : Nat) :
    (l ++ [x]).getD l.length 0 = x := by
  induction l with
  | nil => rfl
  | cons a l ih => simpa using ih

theorem getD_append_lt (l : List Nat) (x : Nat) (i : Nat) (h : i < l.length) :
    (l ++ [x]).getD i 0 = l.getD i 0 := by
  induction l generalizing i with
  | nil => simp at h
  | cons a l ih =>
    cases i with
    | zero => rfl
    | succ j =>
      simp only [List.cons_append, List.getD_cons_succ]
      exact ih j (by simpa using h)

theorem take_succ_getD (l : List Nat) (T : Nat) (h : T < l.length) :
    l.take (T + 1) = l.take T ++ [l.getD T 0] := by
  induction l generalizing T with
  | nil => simp at h
  | cons a l ih =>
    cases T with
    | zero => simp
    | succ t =>
      simp only [List.take_succ_cons, List.getD_cons_succ, List.cons_append]
      rw [ih t (by simpa using h)]

theorem lapCount_succ (N X p : Nat) (hN : 0 < N) (hp : p < N) :
    lapCount N (X + 1) p =
      lapCount N X p + (if p = X % N then 1 else 0) := by
  have hd := Nat.div_add_mod X N
  have hrlt : X % N < N := Nat.mod_lt _ hN
  by_cases hr : X % N = N - 1
  · have hmul : N * (X / N + 1) = N * (X / N) + N := by ring
    have h1 : (X + 1) / N = X / N + 1 ∧ (X + 1) % N = 0 :=
      (Nat.div_mod_unique hN).mpr ⟨by omega, hN⟩
    unfold lapCount
    rw [h1.1, h1.2]
    split_ifs <;> omega
  · have h1 : (X + 1) / N = X / N ∧ (X + 1) % N = X % N + 1 :=
      (Nat.div_mod_unique hN).mpr ⟨by omega, by omega⟩
    unfold lapCount
    rw [h1.1, h1.2]
    split_ifs <;> omega

theorem lapCount_add_N (N X p : Nat) (hN : 0 < N) :
    lapCount N (X + N) p = lapCount N X p + 1 := by
  unfold lapCount
  rw [Nat.add_div_right X hN, Nat.add_mod_right X N]
  split_ifs <;> omega

theorem lapCount_mono (N p : Nat) (hN : 0 < N) (hp : p < N)
    {X Y : Nat} (h : X ≤ Y) : lapCount N X p ≤ lapCount N Y p := by
  induction h with
  | refl => exact Nat.le_refl _
  | step h2 ih =>
    refine Nat.le_trans ih ?_
    rw [lapCount_succ N _ p hN hp]
    split_ifs <;> omega

theorem lapCount_at_self (N X : Nat) : lapCount N X (X % N) = X / N := by
  unfold lapCount
  simp

theorem lapCount_pend (N k p : Nat) (hN : 0 < N) (hp : p < N) :
    lapCount N (k * N + p + 1) p = k + 1 := by
  by_cases hpe : p + 1 = N
  · have hm1 : N * (k + 1) = N * k + N := by ring
    have hm2 : N * k = k * N := by ring
    have h1 : (k * N + p + 1) / N = k + 1 ∧ (k * N + p + 1) % N = 0 :=
      (Nat.div_mod_unique hN).mpr ⟨by omega, hN⟩
    unfold lapCount
    rw [h1.1, h1.2]
    split_ifs <;> omega
  · have hm2 : N * k = k * N := by ring
    have h1 : (k * N + p + 1) / N = k ∧ (k * N + p + 1) % N = p + 1 :=
      (Nat.div_mod_unique hN).mpr ⟨by omega, by omega⟩
    unfold lapCount
    rw [h1.1, h1.2]
    split_ifs <;> omega

theorem lapCount_pend_lt (N X p : Nat) (hN : 0 < N) (hp : p < N)
    (h1 : 1 ≤ lapCount N X p) : (lapCount N X p - 1) * N + p < X := by
  have hd := Nat.div_add_mod X N
  unfold lapCount at h1 ⊢
  by_cases hc : p < X % N
  · rw [if_pos hc] at h1 ⊢
    rw [Nat.add_sub_cancel]
    have hmc : X / N * N = N * (X / N) := by ring
    omega
  · rw [if_neg hc] at h1 ⊢
    simp only [Nat.add_zero] at h1 ⊢
    have e1 : (X / N - 1) * N + N = (X / N - 1 + 1) * N := by ring
    have e2 : X / N - 1 + 1 = X / N := by omega
    rw [e2] at e1
    have e3 : X / N * N = N * (X / N) := by ring
    omega

theorem jobs_reach_inv (N : Nat) (hN2 : 2 ≤ N) (hdvd : N ∣ U32) (hNlt : N < U32)
    {s : Jobs} {sub : List Nat} (hr : Jobs.Reach N s sub) :
    JobsInv N s sub := by
  have hN0 : 0 < N := by omega
  induction hr with
  | init =>
    refine ⟨0, by simp, by simp [Jobs.init], by simp [Jobs.init],
      by simp [Jobs.init], by simp [Jobs.init], by simp [Jobs.init],
      by simp [Jobs.init], ?_⟩
    intro p hp
    left
    have h0 : lapCount N 0 p = 0 := by unfold lapCount; simp
    refine ⟨rfl, ?_⟩
    show p = (lapCount N 0 p * N + p) % U32
    rw [h0]
    simp only [Nat.zero_mul, Nat.zero_add]
    exact (Nat.mod_eq_of_lt (by omega)).symm
  | add job hprev ih =>
    obtain ⟨T, hT1, hT2, hhead, htail, hsub, hcomp, hlog, hslots⟩ := ih
    rename_i s sub
    set H := sub.length with hH
    have hpN : H % N < N := Nat.mod_lt _ hN0
    have hheadN : s.head % N = H % N := by
      rw [hhead]; exact Nat.mod_mod_of_dvd H hdvd
    have hself : lapCount N H (H % N) = H / N := lapCount_at_self N H
    have hdm : H / N * N + H % N = H := Nat.div_add_mod' H N
    rcases hslots (H % N) hpN with ⟨he, hseq⟩ | ⟨he, hseq, hdata⟩
    · -- head slot free from the previous lap: try_add succeeds
      have hc : lapCount N T (H % N) = H / N := by rw [← he]; exact hself
      have htest : s.seqs (s.head % N) = s.head := by
        rw [hheadN, hseq, hhead, hc]
        congr 1
      have hfull : H < T + N := by
        by_contra hcon
        have hEq : H = T + N := by omega
        have hadd := lapCount_add_N N T (H % N) hN0
        rw [← hEq] at hadd
        omega
      have hta : Jobs.try_add N job s =
          (true, { s with
            seqs := fun i => if i = s.head % N then (s.head + 1) % U32 else s.seqs i
            datas := fun i => if i = s.head % N then job else s.datas i
            head := (s.head + 1) % U32
            submitted := (s.submitted + 1) % U32 }) := by
        unfold Jobs.try_add
        rw [if_pos htest]
      rw [hta]
      show JobsInv N _ (sub ++ [job])
      have hlen : (sub ++ [job]).length = H + 1 := by simp
      refine ⟨T, by omega, by omega, ?_, htail, ?_, hcomp, ?_, ?_⟩
      · show (s.head + 1) % U32 = (sub ++ [job]).length % U32
        rw [hlen, hhead, u32_shift_mod H 1]
      · show (s.submitted + 1) % U32 = (sub ++ [job]).length % U32
        rw [hlen, hsub, u32_shift_mod H 1]
      · show s.execLog = (sub ++ [job]).take T
        rw [hlog, take_append_le sub [job] T hT1]
      · intro p hp
        rw [hlen]
        by_cases hpe : p = H % N
        · right
          have hsucc := lapCount_succ N H p hN0 hp
        -- at p = H % N the count grows by one
          rw [if_pos hpe] at hsucc
          have hcH : lapCount N H p = H / N := by rw [hpe]; exact hself
          have hcT : lapCount N T p = H / N := by rw [hpe]; exact hc
          refine ⟨by omega, ?_, ?_⟩
          · show (if p = s.head % N then (s.head + 1) % U32 else s.seqs p) = _
            rw [if_pos (by rw [hheadN]; exact hpe), hhead, u32_shift_mod H 1]
            have hidx : lapCount N (H + 1) p - 1 = H / N := by omega
            rw [hidx, hpe]
            congr 1
            omega
          · show (if p = s.head % N then job else s.datas p) = _
            rw [if_pos (by rw [hheadN]; exact hpe)]
            have hidx : (lapCount N (H + 1) p - 1) * N + p = H := by
              have : lapCount N (H + 1) p - 1 = H / N := by omega
              rw [this, hpe]
              exact hdm
            rw [hidx]
            exact (getD_append_self sub job).symm
        · have hsucc := lapCount_succ N H p hN0 hp
          rw [if_neg hpe] at hsucc
          have hne : ¬p = s.head % N := by rw [hheadN]; exact hpe
          rcases hslots p hp with ⟨he2, hseq2⟩ | ⟨he2, hseq2, hdata2⟩
          · left
            refine ⟨by omega, ?_⟩
            show (if p = s.head % N then (s.head + 1) % U32 else s.seqs p) = _
            rw [if_neg hne]
            exact hseq2
          · right
            have hge1 : 1 ≤ lapCount N H p := by omega
            have hidxlt := lapCount_pend_lt N H p hN0 hp hge1
            refine ⟨by omega, ?_, ?_⟩
            · show (if p = s.head % N then (s.head + 1) % U32 else s.seqs p) = _
              rw [if_neg hne, hsucc]
              exact hseq2
            · show (if p = s.head % N then job else s.datas p) = _
              rw [if_neg hne, hsucc, hdata2]
              exact (getD_append_lt sub job _ hidxlt).symm
    · -- head slot still awaiting consumption: the queue is full, try_add fails
      have heH : lapCount N H (H % N) = lapCount N T (H % N) + 1 := he
      have hge : N ≤ H := by
        have h1 : 1 ≤ lapCount N H (H % N) := by omega
        rw [hself] at h1
        exact (Nat.one_le_div_iff hN0).mp h1
      have hidx : (lapCount N H (H % N) - 1) * N + H % N = H - N := by
        rw [hself]
        have h1 : 1 ≤ H / N := (Nat.one_le_div_iff hN0).mpr hge
        have hm1 : (H / N - 1) * N + N = (H / N - 1 + 1) * N := by ring
        have hm2 : H / N - 1 + 1 = H / N := by omega
        rw [hm2] at hm1
        omega
      have htest : s.seqs (s.head % N) ≠ s.head := by
        rw [hheadN, hseq, hidx, hhead]
        apply u32_mod_ne
        · omega
        · omega
      have hta : Jobs.try_add N job s = (false, s) := by
        unfold Jobs.try_add
        rw [if_neg htest]
      rw [hta]
      show JobsInv N s sub
      exact ⟨T, hT1, hT2, hhead, htail, hsub, hcomp, hlog, hslots⟩
  | run hprev ih =>
    obtain ⟨T, hT1, hT2, hhead, htail, hsub, hcomp, hlog, hslots⟩ := ih
    rename_i s sub
    have hpN : T % N < N := Nat.mod_lt _ hN0
    have htailN : s.tail % N = T % N := by
      rw [htail]; exact Nat.mod_mod_of_dvd T hdvd
    have hselfT : lapCount N T (T % N) = T / N := lapCount_at_self N T
    have hdmT : T / N * N + T % N = T := Nat.div_add_mod' T N
    have hU2 : 1 < U32 := by omega
    rcases hslots (T % N) hpN with ⟨he, hseq⟩ | ⟨he, hseq, hdata⟩
    · -- tail slot producer-owned: nothing ready, run_next returns false
      have htest : s.seqs (s.tail % N) ≠ (s.tail + 1) % U32 := by
        rw [htailN, hseq, htail, u32_shift_mod T 1]
        have hcT : lapCount N T (T % N) * N + T % N = T := by
          rw [hselfT]; exact hdmT
        rw [hcT]
        exact u32_mod_ne (by omega) (by omega)
      have hrn : Jobs.run_next N s = (false, s) := by
        unfold Jobs.run_next
        rw [if_neg htest]
      rw [hrn]
      exact ⟨T, hT1, hT2, hhead, htail, hsub, hcomp, hlog, hslots⟩
    · -- tail slot holds the pending job: run_next executes it
      have hidxT : (lapCount N sub.length (T % N) - 1) * N + T % N = T := by
        rw [he, hselfT, Nat.add_sub_cancel]
        exact hdmT
      have htest : s.seqs (s.tail % N) = (s.tail + 1) % U32 := by
        rw [htailN, hseq, hidxT, htail, u32_shift_mod T 1]
      have hTH : T < sub.length := by
        rcases Nat.lt_or_ge T sub.length with h | h
        · exact h
        · have hEq : sub.length = T := by omega
          rw [hEq] at he
          omega
      have hrn : Jobs.run_next N s =
          (true, { s with
            seqs := fun i => if i = s.tail % N then (s.tail + N) % U32 else s.seqs i
            tail := (s.tail + 1) % U32
            completed := (s.completed + 1) % U32
            execLog := s.execLog ++ [s.datas (s.tail % N)] }) := by
        unfold Jobs.run_next
        rw [if_pos htest]
      rw [hrn]
      show JobsInv N _ sub
      refine ⟨T + 1, by omega, by omega, hhead, ?_, hsub, ?_, ?_, ?_⟩
      · show (s.tail + 1) % U32 = (T + 1) % U32
        rw [htail, u32_shift_mod T 1]
      · show (s.completed + 1) % U32 = (T + 1) % U32
        rw [hcomp, u32_shift_mod T 1]
      · show s.execLog ++ [s.datas (s.tail % N)] = sub.take (T + 1)
        rw [htailN, hdata, hidxT, hlog]
        exact (take_succ_getD sub T hTH).symm
      · intro p hp
        by_cases hpe : p = T % N
        · left
          have hsucc := lapCount_succ N T p hN0 hp
          rw [if_pos hpe] at hsucc
          have heP : lapCount N sub.length p = lapCount N T p + 1 := by rw [hpe]; exact he
          refine ⟨by omega, ?_⟩
          show (if p = s.tail % N then (s.tail + N) % U32 else s.seqs p) = _
          rw [if_pos (by rw [htailN]; exact hpe), htail, u32_shift_mod T N, hsucc]
          have hcT2 : lapCount N T p = T / N := by rw [hpe]; exact hselfT
          rw [hcT2]
          have hx : (T / N + 1) * N + p = T + N := by
            have hm : (T / N + 1) * N = T / N * N + N := by ring
            rw [hpe]
            omega
          rw [hx]
        · have hsucc := lapCount_succ N T p hN0 hp
          rw [if_neg hpe] at hsucc
          have hne : ¬p = s.tail % N := by rw [htailN]; exact hpe
          rcases hslots p hp with ⟨he2, hseq2⟩ | ⟨he2, hseq2, hdata2⟩
          · left
            refine ⟨by omega, ?_⟩
            show (if p = s.tail % N then (s.tail + N) % U32 else s.seqs p) = _
            rw [if_neg hne, hsucc]
            exact hseq2
          · right
            refine ⟨by omega, ?_, ?_⟩
            · show (if p = s.tail % N then (s.tail + N) % U32 else s.seqs p) = _
              rw [if_neg hne]
              exact hseq2
            · exact hdata2

theorem u32_sub_cnt (X T : Nat) (h1 : T ≤ X) (h2 : X - T < U32) :
    (X % U32 + U32 - T % U32) % U32 = X - T := by
  simp only [U32] at *; omega

theorem lapCount_head_idx (N X : Nat) (hN : 0 < N) (hge : N ≤ X) :
    (lapCount N X (X % N) - 1) * N + X % N = X - N := by
  rw [lapCount_at_self]
  have hdm := Nat.div_add_mod' X N
  have h1 : 1 ≤ X / N := (Nat.one_le_div_iff hN).mpr hge
  have hm1 : (X / N - 1) * N + N = (X / N - 1 + 1) * N := by ring
  have hm2 : X / N - 1 + 1 = X / N := by omega
  rw [hm2] at hm1
  omega

/-- Claim C1: single-producer single-consumer law.  In any run of the
queue from `Jobs::init` (any interleaving of producer `try_add`/`add`
steps and consumer `run_next` steps; `sub` is the list of successfully
submitted jobs in submission order, covering the claim's `k` jobs of at
most 48 bytes — the 48-byte bound is the compile-time
`static_assert(sizeof(T) <= JOB_SIZE)`), once the number of successful
`run_next` calls equals the number of submitted jobs, the executed jobs
are exactly the submitted ones, each exactly once, in submission order.
`N` is the queue capacity: a power of two with `2 ≤ N < 2^32`
(`Jobs<256>` in the kernel). -/
theorem spsc_jobs_in_order (N : Nat) (hN2 : 2 ≤ N) (hdvd : N ∣ U32)
    (hNlt : N < U32) {s : Jobs} {sub : List Nat} (hr : Jobs.Reach N s sub)
    (hlen : s.execLog.length = sub.length) :
    s.execLog = sub := by
  obtain ⟨T, hT1, _, _, _, _, _, hlog, _⟩ := jobs_reach_inv N hN2 hdvd hNlt hr
  rw [hlog] at hlen ⊢
  rw [List.length_take] at hlen
  have hT : T = sub.length := by omega
  rw [hT, List.take_length]

/-- Witness for C1: one job through a `Jobs<2>` queue. -/
theorem spsc_jobs_in_order_witness :
    (Jobs.run_next 2 (Jobs.try_add 2 5 (Jobs.init 2)).2).2.execLog.length =
      [5].length ∧
    (Jobs.run_next 2 (Jobs.try_add 2 5 (Jobs.init 2)).2).2.execLog = [5] :=
  ⟨rfl,
    spsc_jobs_in_order 2 (by decide) ⟨2147483648, rfl⟩ (by decide)
      (Jobs.Reach.run (Jobs.Reach.add 5 Jobs.Reach.init) :
        Jobs.Reach 2 _ [5]) rfl⟩

/-- Claim C2: slot two-state invariant.  In every state reachable from
`Jobs::init` by producer steps (`try_add`/`add`) and consumer steps
(`run_next`), every slot `p` has sequence `lap * N + p` (producer-owned)
or `lap * N + p + 1` (awaiting consumption) for some lap; no third value
is observable.  The sequence field is a `u32`, so the equality is mod
`2^32`. -/
theorem slot_two_state (N : Nat) (hN2 : 2 ≤ N) (hdvd : N ∣ U32)
    (hNlt : N < U32) {s : Jobs} {sub : List Nat} (hr : Jobs.Reach N s sub)
    (p : Nat) (hp : p < N) :
    ∃ lap, s.seqs p = (lap * N + p) % U32 ∨
      s.seqs p = (lap * N + p + 1) % U32 := by
  obtain ⟨T, _, _, _, _, _, _, _, hslots⟩ := jobs_reach_inv N hN2 hdvd hNlt hr
  rcases hslots p hp with ⟨_, hseq⟩ | ⟨_, hseq, _⟩
  · exact ⟨lapCount N T p, Or.inl hseq⟩
  · exact ⟨lapCount N sub.length p - 1, Or.inr hseq⟩

/-- Witness for C2 at the freshly initialised `Jobs<256>` queue, slot 3. -/
theorem slot_two_state_witness :
    ((2 : Nat) ≤ 256 ∧ (3 : Nat) < 256) ∧
    (∃ lap, (Jobs.init 256).seqs 3 = (lap * 256 + 3) % U32 ∨
      (Jobs.init 256).seqs 3 = (lap * 256 + 3 + 1) % U32) :=
  ⟨⟨by decide, by decide⟩,
    slot_two_state 256 (by decide) ⟨16777216, rfl⟩ (by decide)
      Jobs.Reach.init 3 (by decide)⟩

/-- Claim C3: `try_add` returns false exactly when the slot at
`head % N` has sequence different from `head`; in every reachable state
with `submitted - completed = N` (the `u32` difference, i.e.
`active_count`), `try_add` returns false leaving the state untouched, and
in every reachable state with `active_count ≠ N` it copies the job into
the slot, publishes `sequence = head + 1`, advances `head`, and returns
true. -/
theorem try_add_full_iff (N : Nat) (hN2 : 2 ≤ N) (hdvd : N ∣ U32)
    (hNlt : N < U32) {s : Jobs} {sub : List Nat} (hr : Jobs.Reach N s sub)
    (job : Nat) :
    ((Jobs.try_add N job s).1 = false ↔ s.seqs (s.head % N) ≠ s.head) ∧
    (Jobs.active_count s = N → Jobs.try_add N job s = (false, s)) ∧
    (Jobs.active_count s ≠ N →
      (Jobs.try_add N job s).1 = true ∧
      (Jobs.try_add N job s).2.seqs (s.head % N) = (s.head + 1) % U32 ∧
      (Jobs.try_add N job s).2.datas (s.head % N) = job ∧
      (Jobs.try_add N job s).2.head = (s.head + 1) % U32 ∧
      (Jobs.try_add N job s).2.tail = s.tail) := by
  have hN0 : 0 < N := by omega
  obtain ⟨T, hT1, hT2, hhead, htail, hsub, hcomp, hlog, hslots⟩ :=
    jobs_reach_inv N hN2 hdvd hNlt hr
  have hpN : sub.length % N < N := Nat.mod_lt _ hN0
  have hheadN : s.head % N = sub.length % N := by
    rw [hhead]; exact Nat.mod_mod_of_dvd _ hdvd
  have hself : lapCount N sub.length (sub.length % N) = sub.length / N :=
    lapCount_at_self N sub.length
  have hdm := Nat.div_add_mod' sub.length N
  have hac : Jobs.active_count s = sub.length - T := by
    unfold Jobs.active_count
    rw [hsub, hcomp]
    exact u32_sub_cnt sub.length T hT1 (by omega)
  refine ⟨⟨?_, ?_⟩, ?_, ?_⟩
  · intro hf hc
    unfold Jobs.try_add at hf
    rw [if_pos hc] at hf
    simp at hf
  · intro hc
    unfold Jobs.try_add
    rw [if_neg hc]
  · intro hfull
    have hHT : sub.length = T + N := by omega
    rcases hslots (sub.length % N) hpN with ⟨he, hseq⟩ | ⟨he, hseq, hdata⟩
    · exfalso
      have hadd := lapCount_add_N N T (sub.length % N) hN0
      rw [← hHT] at hadd
      omega
    · have hge : N ≤ sub.length := by omega
      have hidx := lapCount_head_idx N sub.length hN0 hge
      have htest : s.seqs (s.head % N) ≠ s.head := by
        rw [hheadN, hseq, hidx, hhead]
        exact u32_mod_ne (by omega) (by omega)
      unfold Jobs.try_add
      rw [if_neg htest]
  · intro hnot
    have hW : sub.length < T + N := by omega
    rcases hslots (sub.length % N) hpN with ⟨he, hseq⟩ | ⟨he, hseq, hdata⟩
    · have hc : lapCount N T (sub.length % N) = sub.length / N := by
        rw [← he]; exact hself
      have htest : s.seqs (s.head % N) = s.head := by
        rw [hheadN, hseq, hhead, hc]
        congr 1
      unfold Jobs.try_add
      rw [if_pos htest]
      refine ⟨rfl, ?_, ?_, rfl, rfl⟩
      · show (if s.head % N = s.head % N then (s.head + 1) % U32
          else s.seqs (s.head % N)) = (s.head + 1) % U32
        rw [if_pos rfl]
      · show (if s.head % N = s.head % N then job
          else s.datas (s.head % N)) = job
        rw [if_pos rfl]
    · exfalso
      have hge1 : 1 ≤ lapCount N sub.length (sub.length % N) := by omega
      have hge : N ≤ sub.length := by
        rw [hself] at hge1
        exact (Nat.one_le_div_iff hN0).mp hge1
      have hidx := lapCount_head_idx N sub.length hN0 hge
      have hpend := lapCount_pend N
        (lapCount N sub.length (sub.length % N) - 1) (sub.length % N) hN0 hpN
      rw [hidx] at hpend
      have hmono := lapCount_mono N (sub.length % N) hN0 hpN
        (show sub.length - N + 1 ≤ T by omega)
      omega

/-- Witness for C3: a fresh `Jobs<2>` queue is not full, and `try_add`
succeeds on it with all the stated effects. -/
theorem try_add_full_iff_witness :
    Jobs.active_count (Jobs.init 2) ≠ 2 ∧
    ((Jobs.try_add 2 5 (Jobs.init 2)).1 = true ∧
      (Jobs.try_add 2 5 (Jobs.init 2)).2.seqs ((Jobs.init 2).head % 2) =
        ((Jobs.init 2).head + 1) % U32 ∧
      (Jobs.try_add 2 5 (Jobs.init 2)).2.datas ((Jobs.init 2).head % 2) = 5 ∧
      (Jobs.try_add 2 5 (Jobs.init 2)).2.head = ((Jobs.init 2).head + 1) % U32 ∧
      (Jobs.try_add 2 5 (Jobs.init 2)).2.tail = (Jobs.init 2).tail) :=
  ⟨by decide,
    (try_add_full_iff 2 (by decide) ⟨2147483648, rfl⟩ (by decide)
      Jobs.Reach.init 5).2.2 (by decide)⟩

/-! ## Claim C9: idempotence of `map_range` -/

theorem PageState.ext_eq {s1 s2 : PageState} (hm : ∀ a, s1.mem a = s2.mem a)
    (hs : s1.heapStart = s2.heapStart) (hz : s1.heapSize = s2.heapSize) :
    s1 = s2 := by
  cases s1
  cases s2
  simp only [PageState.mk.injEq]
  exact ⟨funext hm, hs, hz⟩

theorem setMem_self (s : PageState) (a v : Nat) (h : s.mem a = v) :
    setMem s a v = s := by
  refine PageState.ext_eq (fun x => ?_) rfl rfl
  show (if x = a then v else s.mem x) = s.mem x
  split_ifs with hx
  · rw [hx, h]
  · rfl

theorem lor3_mod_two (x : Nat) : (x ||| 3) % 2 = 1 :=
  Nat.or_mod_two_eq_one.mpr (Or.inr rfl)

theorem lor3_div_mul (x : Nat) (h : 4096 ∣ x) : (x ||| 3) / 4096 * 4096 = x := by
  have h2 : (x ||| 3) / 2 = x / 2 ||| 1 := by
    have h0 := Nat.or_div_two (a := x) (b := 3)
    norm_num at h0
    exact h0
  have h4 : (x ||| 3) / 4 = x / 4 := by
    have e1 : (x ||| 3) / 4 = (x ||| 3) / 2 / 2 := by
      rw [Nat.div_div_eq_div_mul]
    have h3 : (x / 2 ||| 1) / 2 = x / 2 / 2 := by
      have h0 := Nat.or_div_two (a := x / 2) (b := 1)
      norm_num at h0
      exact h0
    rw [e1, h2, h3, Nat.div_div_eq_div_mul]
  have h4096 : (x ||| 3) / 4096 = x / 4096 := by
    have e1 : (x ||| 3) / 4096 = (x ||| 3) / 4 / 1024 := by
      rw [Nat.div_div_eq_div_mul]
    have e2 : x / 4 / 1024 = x / 4096 := by
      rw [Nat.div_div_eq_div_mul]
    rw [e1, h4, e2]
  rw [h4096, Nat.div_mul_cancel h]

theorem slot_addr_ne {x y k k2 : Nat} (hx : 4096 ∣ x) (hy : 4096 ∣ y)
    (hne : x ≠ y) (hk : k < 512) (hk2 : k2 < 512) :
    x + 8 * k ≠ y + 8 * k2 := by
  rcases hx with ⟨a, rfl⟩
  rcases hy with ⟨b, rfl⟩
  intro h
  omega

theorem slot_out {x y k : Nat} (hx : 4096 ∣ x) (hy : 4096 ∣ y) (hne : x ≠ y)
    (hk : k < 512) : ¬(y ≤ x + 8 * k ∧ x + 8 * k < y + 4096) := by
  rcases hx with ⟨a, rfl⟩
  rcases hy with ⟨b, rfl⟩
  omega

theorem gnt3 (pml4 : Nat) (f : Forest) (s : PageState) (i4 b3 : Nat)
    (s2 : PageState) (hwf : WF pml4 f s) (hi4 : i4 < 512)
    (hrun : get_next_table pml4 i4 s = some (b3, s2)) :
    ∃ f2, WF pml4 f2 s2 ∧
      f2.l3 i4 = some b3 ∧
      f2.l2 = f.l2 ∧ f2.l1 = f.l1 ∧ f2.hv = f.hv ∧ f2.lv = f.lv ∧
      (∀ j, j ≠ i4 → f2.l3 j = f.l3 j) ∧
      (∀ b, f.l3 i4 = some b → b3 = b ∧ s2 = s ∧ f2 = f) := by
  unfold get_next_table at hrun
  by_cases hp : s.mem (pml4 + 8 * i4) % 2 = 1
  · rw [if_pos hp] at hrun
    cases hl : f.l3 i4 with
    | none =>
      exfalso
      have h0 := (hwf.ent3 i4 hi4).1 hl
      omega
    | some b =>
      have hm := (hwf.ent3 i4 hi4).2 b hl
      have hba : 4096 ∣ b := hwf.base_align (TPath.p3 i4) b hl
      rw [hm, lor3_div_mul b hba] at hrun
      simp only [Option.some.injEq, Prod.mk.injEq] at hrun
      obtain ⟨hb3, hs2⟩ := hrun
      subst hb3
      subst hs2
      refine ⟨f, hwf, hl, rfl, rfl, rfl, rfl, fun j _ => rfl, ?_⟩
      intro b2 hb2
      injection hb2 with hbb
      exact ⟨hbb, rfl, rfl⟩
  · rw [if_neg hp] at hrun
    have hp0 : s.mem (pml4 + 8 * i4) % 2 = 0 := by omega
    have hl : f.l3 i4 = none := by
      cases hc : f.l3 i4 with
      | none => rfl
      | some b =>
        exfalso
        have hm := (hwf.ent3 i4 hi4).2 b hc
        have h1 := lor3_mod_two b
        rw [hm] at hp0
        omega
    unfold allocate_page at hrun
    by_cases hsz : s.heapSize < 4096
    · rw [if_pos hsz] at hrun
      simp at hrun
    · rw [if_neg hsz] at hrun
      simp only [Option.some.injEq, Prod.mk.injEq] at hrun
      obtain ⟨hb3, hs2⟩ := hrun
      rw [Nat.div_mul_cancel hwf.heap_align] at hb3
      subst hb3
      subst hs2
      have hsz4 : 4096 ≤ s.heapSize := by omega
      have hroot_ne : pml4 ≠ s.heapStart := by
        rcases hwf.root_disj with h | h
        · omega
        · omega
      -- reads in the updated state
      have hmem_at : ∀ v X,
          (setMem X (pml4 + 8 * i4) v).mem (pml4 + 8 * i4) = v := by
        intro v X
        show (if pml4 + 8 * i4 = pml4 + 8 * i4 then v else X.mem _) = v
        rw [if_pos rfl]
      have hmem_other : ∀ a, a ≠ pml4 + 8 * i4 →
          ¬(s.heapStart ≤ a ∧ a < s.heapStart + 4096) →
          (setMem
            { mem := fun x =>
                if s.heapStart ≤ x ∧ x < s.heapStart + 4096 then 0 else s.mem x
              heapStart := s.heapStart + 4096
              heapSize := s.heapSize - 4096 }
            (pml4 + 8 * i4) (s.heapStart ||| 3)).mem a = s.mem a := by
        intro a h1 h2
        show (if a = pml4 + 8 * i4 then _
          else if s.heapStart ≤ a ∧ a < s.heapStart + 4096 then 0 else s.mem a) =
            s.mem a
        rw [if_neg h1, if_neg h2]
      have hmem_zero : ∀ a, a ≠ pml4 + 8 * i4 → s.heapStart ≤ a →
          a < s.heapStart + 4096 →
          (setMem
            { mem := fun x =>
                if s.heapStart ≤ x ∧ x < s.heapStart + 4096 then 0 else s.mem x
              heapStart := s.heapStart + 4096
              heapSize := s.heapSize - 4096 }
            (pml4 + 8 * i4) (s.heapStart ||| 3)).mem a = 0 := by
        intro a h1 h2 h3
        show (if a = pml4 + 8 * i4 then _
          else if s.heapStart ≤ a ∧ a < s.heapStart + 4096 then 0 else s.mem a) = 0
        rw [if_neg h1, if_pos ⟨h2, h3⟩]
      have hsub_slot : ∀ t k, 4096 ∣ t → t + 4096 ≤ s.heapStart → t ≠ pml4 →
          k < 512 →
          (setMem
            { mem := fun x =>
                if s.heapStart ≤ x ∧ x < s.heapStart + 4096 then 0 else s.mem x
              heapStart := s.heapStart + 4096
              heapSize := s.heapSize - 4096 }
            (pml4 + 8 * i4) (s.heapStart ||| 3)).mem (t + 8 * k) =
            s.mem (t + 8 * k) := by
        intro t k h1 h2 h3 h4
        apply hmem_other
        · exact slot_addr_ne h1 hwf.root_align h3 h4 hi4
        · exact slot_out h1 hwf.heap_align (by omega) h4
      have hroot_slot : ∀ k, k < 512 → k ≠ i4 →
          (setMem
            { mem := fun x =>
                if s.heapStart ≤ x ∧ x < s.heapStart + 4096 then 0 else s.mem x
              heapStart := s.heapStart + 4096
              heapSize := s.heapSize - 4096 }
            (pml4 + 8 * i4) (s.heapStart ||| 3)).mem (pml4 + 8 * k) =
            s.mem (pml4 + 8 * k) := by
        intro k h4 hne
        apply hmem_other
        · intro hcon
          exact hne (by omega)
        · exact slot_out hwf.root_align hwf.heap_align hroot_ne h4
      refine ⟨{ f with l3 := fun j => if j = i4 then some s.heapStart else f.l3 j },
        ?_, by simp, rfl, rfl, rfl, rfl, ?_, ?_⟩
      · -- well-formedness of the extended forest in the updated state
        have hbase2 : ∀ p b,
            Forest.base?
              { f with l3 := fun j => if j = i4 then some s.heapStart else f.l3 j }
              pml4 p = some b →
            (p = TPath.p3 i4 ∧ b = s.heapStart) ∨ Forest.base? f pml4 p = some b := by
          intro p b hb
          cases p with
          | root => exact Or.inr hb
          | p3 j =>
            by_cases hj : j = i4
            · subst hj
              left
              refine ⟨rfl, ?_⟩
              simp [Forest.base?] at hb
              exact hb.symm
            · right
              simpa [Forest.base?, hj] using hb
          | p2 pk => exact Or.inr hb
          | p1 q => exact Or.inr hb
        have hnew_not_old : ∀ p, Forest.base? f pml4 p = some s.heapStart → False := by
          intro p hp2
          cases p with
          | root =>
            simp only [Forest.base?, Option.some.injEq] at hp2
            exact hroot_ne hp2
          | p3 j =>
            have := hwf.sub_lt (TPath.p3 j) _ (fun h => TPath.noConfusion h) hp2
            omega
          | p2 pk =>
            have := hwf.sub_lt (TPath.p2 pk) _ (fun h => TPath.noConfusion h) hp2
            omega
          | p1 q =>
            have := hwf.sub_lt (TPath.p1 q) _ (fun h => TPath.noConfusion h) hp2
            omega
        refine
          { root_align := hwf.root_align
            heap_align := Nat.dvd_add hwf.heap_align ⟨1, rfl⟩
            root_disj := ?_
            base_align := ?_
            sub_lt := ?_
            inj := ?_
            dom3 := ?_
            dom2 := ?_
            dom1 := hwf.dom1
            hv_l1 := hwf.hv_l1
            dom0 := hwf.dom0
            ent3 := ?_
            ent2 := ?_
            ent1 := ?_
            ent0 := ?_ }
        · rcases hwf.root_disj with h | h
          · refine Or.inl ?_
            show pml4 + 4096 ≤ s.heapStart + 4096
            omega
          · refine Or.inr ?_
            show s.heapStart + 4096 + (s.heapSize - 4096) ≤ pml4
            omega
        · intro p b hb
          rcases hbase2 p b hb with ⟨_, rfl⟩ | hold
          · exact hwf.heap_align
          · exact hwf.base_align p b hold
        · intro p b hp hb
          rcases hbase2 p b hb with ⟨_, rfl⟩ | hold
          · show s.heapStart + 4096 ≤ s.heapStart + 4096
            omega
          · have := hwf.sub_lt p b hp hold
            show b + 4096 ≤ s.heapStart + 4096
            omega
        · intro p q b hpb hqb
          rcases hbase2 p b hpb with ⟨hp1, hb1⟩ | hp2 <;>
            rcases hbase2 q b hqb with ⟨hq1, hb2⟩ | hq2
          · rw [hp1, hq1]
          · exact absurd (hb1 ▸ hq2) (fun h => hnew_not_old q h)
          · exact absurd (hb2 ▸ hp2) (fun h => hnew_not_old p h)
          · exact hwf.inj p q b hp2 hq2
        · intro j hj
          by_cases hje : j = i4
          · subst hje; exact hi4
          · apply hwf.dom3
            simpa [hje] using hj
        · intro p hp2
          have h1 := hwf.dom2 p hp2
          refine ⟨h1.1, ?_⟩
          by_cases hje : p / 512 = i4
          · rw [hje]
            simp
          · simpa [hje] using h1.2
        · intro j hj
          by_cases hje : j = i4
          · subst hje
            constructor
            · intro hcon
              have hb4 : (if j = j then some s.heapStart else f.l3 j) = none :=
                hcon
              rw [if_pos rfl] at hb4
              exact Option.noConfusion hb4
            · intro b3' hb3'
              have hb4 : (if j = j then some s.heapStart else f.l3 j) =
                  some b3' := hb3'
              rw [if_pos rfl] at hb4
              injection hb4 with hbx
              rw [hmem_at, hbx]
          · constructor
            · intro hcon
              rw [hroot_slot j hj hje]
              refine (hwf.ent3 j hj).1 ?_
              simpa [hje] using hcon
            · intro b3' hb3'
              rw [hroot_slot j hj hje]
              refine (hwf.ent3 j hj).2 b3' ?_
              simpa [hje] using hb3'
        · intro p hp2 b3' hb3'
          by_cases hpe : p / 512 = i4
          · have hb3e : b3' = s.heapStart := by
              rw [hpe] at hb3'
              have hb4 : (if i4 = i4 then some s.heapStart else f.l3 i4) =
                  some b3' := hb3'
              rw [if_pos rfl] at hb4
              injection hb4 with hbx
              exact hbx.symm
            have hl2 : f.l2 p = none := by
              cases hc : f.l2 p with
              | none => rfl
              | some b2 =>
                exfalso
                have hdom := hwf.dom2 p (by
                  intro hcon
                  rw [hc] at hcon
                  exact Option.noConfusion hcon)
                rw [hpe, hl] at hdom
                exact hdom.2 rfl
            subst hb3e
            constructor
            · intro _
              rw [hmem_zero (s.heapStart + 8 * (p % 512))
                (slot_addr_ne hwf.heap_align hwf.root_align (by omega)
                  (Nat.mod_lt _ (by omega)) hi4)
                (by omega)
                (by have := Nat.mod_lt p (y := 512) (by omega); omega)]
            · intro b2 hb2
              rw [hl2] at hb2
              exact Option.noConfusion hb2
          · have hb3o : f.l3 (p / 512) = some b3' := by
              simpa [hpe] using hb3'
            have hba : 4096 ∣ b3' := hwf.base_align (TPath.p3 (p / 512)) b3' hb3o
            have hblt : b3' + 4096 ≤ s.heapStart :=
              hwf.sub_lt (TPath.p3 (p / 512)) b3' (fun h => TPath.noConfusion h) hb3o
            have hbne : b3' ≠ pml4 := by
              intro hcon
              have hb0 : Forest.base? f pml4 (TPath.p3 (p / 512)) = some pml4 := by
                rw [← hcon]; exact hb3o
              have := hwf.inj (TPath.p3 (p / 512)) TPath.root pml4 hb0 rfl
              exact TPath.noConfusion this
            rw [hsub_slot b3' (p % 512) hba hblt hbne (Nat.mod_lt _ (by omega))]
            exact hwf.ent2 p hp2 b3' hb3o
        · intro q hq b2 hb2
          have hb2f : f.l2 (q / 512) = some b2 := hb2
          have hba : 4096 ∣ b2 := hwf.base_align (TPath.p2 (q / 512)) b2 hb2f
          have hblt : b2 + 4096 ≤ s.heapStart :=
            hwf.sub_lt (TPath.p2 (q / 512)) b2 (fun h => TPath.noConfusion h) hb2f
          have hbne : b2 ≠ pml4 := by
            intro hcon
            have hb0 : Forest.base? f pml4 (TPath.p2 (q / 512)) = some pml4 := by
              rw [← hcon]; exact hb2f
            have := hwf.inj (TPath.p2 (q / 512)) TPath.root pml4 hb0 rfl
            exact TPath.noConfusion this
          rw [hsub_slot b2 (q % 512) hba hblt hbne (Nat.mod_lt _ (by omega))]
          exact hwf.ent1 q hq b2 hb2f
        · intro pg b1 v hl1 hlv
          have hl1f : f.l1 (pg / 512) = some b1 := hl1
          have hba : 4096 ∣ b1 := hwf.base_align (TPath.p1 (pg / 512)) b1 hl1f
          have hblt : b1 + 4096 ≤ s.heapStart :=
            hwf.sub_lt (TPath.p1 (pg / 512)) b1 (fun h => TPath.noConfusion h) hl1f
          have hbne : b1 ≠ pml4 := by
            intro hcon
            have hb0 : Forest.base? f pml4 (TPath.p1 (pg / 512)) = some pml4 := by
              rw [← hcon]; exact hl1f
            have := hwf.inj (TPath.p1 (pg / 512)) TPath.root pml4 hb0 rfl
            exact TPath.noConfusion this
          rw [hsub_slot b1 (pg % 512) hba hblt hbne (Nat.mod_lt _ (by omega))]
          exact hwf.ent0 pg b1 v hl1f hlv
      · intro j hj
        simp [hj]
      · intro b hb
        rw [hl] at hb
        exact Option.noConfusion hb

theorem gnt2 (pml4 : Nat) (f : Forest) (s : PageState) (p b3 b2 : Nat)
    (s2 : PageState) (hwf : WF pml4 f s) (hp : p < 262144)
    (hb3 : f.l3 (p / 512) = some b3)
    (hrun : get_next_table b3 (p % 512) s = some (b2, s2)) :
    ∃ f2, WF pml4 f2 s2 ∧
      f2.l2 p = some b2 ∧
      f2.l3 = f.l3 ∧ f2.l1 = f.l1 ∧ f2.hv = f.hv ∧ f2.lv = f.lv ∧
      (∀ j, j ≠ p → f2.l2 j = f.l2 j) ∧
      (∀ b, f.l2 p = some b → b2 = b ∧ s2 = s ∧ f2 = f) := by
  have hpm : p % 512 < 512 := Nat.mod_lt _ (by omega)
  have hb3a : 4096 ∣ b3 := hwf.base_align (TPath.p3 (p / 512)) b3 hb3
  have hb3lt : b3 + 4096 ≤ s.heapStart :=
    hwf.sub_lt (TPath.p3 (p / 512)) b3 (fun h => TPath.noConfusion h) hb3
  have hb3ne : b3 ≠ pml4 := by
    intro hcon
    have hb0 : Forest.base? f pml4 (TPath.p3 (p / 512)) = some pml4 := by
      rw [← hcon]; exact hb3
    have := hwf.inj (TPath.p3 (p / 512)) TPath.root pml4 hb0 rfl
    exact TPath.noConfusion this
  unfold get_next_table at hrun
  by_cases hpr : s.mem (b3 + 8 * (p % 512)) % 2 = 1
  · rw [if_pos hpr] at hrun
    cases hl : f.l2 p with
    | none =>
      exfalso
      have h0 := (hwf.ent2 p hp b3 hb3).1 hl
      omega
    | some b =>
      have hm := (hwf.ent2 p hp b3 hb3).2 b hl
      have hba : 4096 ∣ b := hwf.base_align (TPath.p2 p) b hl
      rw [hm, lor3_div_mul b hba] at hrun
      simp only [Option.some.injEq, Prod.mk.injEq] at hrun
      obtain ⟨hb2e, hs2⟩ := hrun
      subst hb2e
      subst hs2
      refine ⟨f, hwf, hl, rfl, rfl, rfl, rfl, fun j _ => rfl, ?_⟩
      intro b' hb'
      injection hb' with hbb
      exact ⟨hbb, rfl, rfl⟩
  · rw [if_neg hpr] at hrun
    have hp0 : s.mem (b3 + 8 * (p % 512)) % 2 = 0 := by omega
    have hl : f.l2 p = none := by
      cases hc : f.l2 p with
      | none => rfl
      | some b =>
        exfalso
        have hm := (hwf.ent2 p hp b3 hb3).2 b hc
        have h1 := lor3_mod_two b
        rw [hm] at hp0
        omega
    unfold allocate_page at hrun
    by_cases hsz : s.heapSize < 4096
    · rw [if_pos hsz] at hrun
      simp at hrun
    · rw [if_neg hsz] at hrun
      simp only [Option.some.injEq, Prod.mk.injEq] at hrun
      obtain ⟨hb2e, hs2⟩ := hrun
      rw [Nat.div_mul_cancel hwf.heap_align] at hb2e
      subst hb2e
      subst hs2
      have hsz4 : 4096 ≤ s.heapSize := by omega
      have hroot_ne : pml4 ≠ s.heapStart := by
        rcases hwf.root_disj with h | h
        · omega
        · omega
      have hb3sne : b3 ≠ s.heapStart := by omega
      have hmem_at : ∀ v X,
          (setMem X (b3 + 8 * (p % 512)) v).mem (b3 + 8 * (p % 512)) = v := by
        intro v X
        show (if b3 + 8 * (p % 512) = b3 + 8 * (p % 512) then v
          else X.mem _) = v
        rw [if_pos rfl]
      have hmem_other : ∀ a, a ≠ b3 + 8 * (p % 512) →
          ¬(s.heapStart ≤ a ∧ a < s.heapStart + 4096) →
          (setMem
            { mem := fun x =>
                if s.heapStart ≤ x ∧ x < s.heapStart + 4096 then 0 else s.mem x
              heapStart := s.heapStart + 4096
              heapSize := s.heapSize - 4096 }
            (b3 + 8 * (p % 512)) (s.heapStart ||| 3)).mem a = s.mem a := by
        intro a h1 h2
        show (if a = b3 + 8 * (p % 512) then _
          else if s.heapStart ≤ a ∧ a < s.heapStart + 4096 then 0 else s.mem a) =
            s.mem a
        rw [if_neg h1, if_neg h2]
      have hmem_zero : ∀ a, a ≠ b3 + 8 * (p % 512) → s.heapStart ≤ a →
          a < s.heapStart + 4096 →
          (setMem
            { mem := fun x =>
                if s.heapStart ≤ x ∧ x < s.heapStart + 4096 then 0 else s.mem x
              heapStart := s.heapStart + 4096
              heapSize := s.heapSize - 4096 }
            (b3 + 8 * (p % 512)) (s.heapStart ||| 3)).mem a = 0 := by
        intro a h1 h2 h3
        show (if a = b3 + 8 * (p % 512) then _
          else if s.heapStart ≤ a ∧ a < s.heapStart + 4096 then 0 else s.mem a) = 0
        rw [if_neg h1, if_pos ⟨h2, h3⟩]
      have hsub_slot : ∀ t k, 4096 ∣ t → t + 4096 ≤ s.heapStart → t ≠ b3 →
          k < 512 →
          (setMem
            { mem := fun x =>
                if s.heapStart ≤ x ∧ x < s.heapStart + 4096 then 0 else s.mem x
              heapStart := s.heapStart + 4096
              heapSize := s.heapSize - 4096 }
            (b3 + 8 * (p % 512)) (s.heapStart ||| 3)).mem (t + 8 * k) =
            s.mem (t + 8 * k) := by
        intro t k h1 h2 h3 h4
        apply hmem_other
        · exact slot_addr_ne h1 hb3a h3 h4 hpm
        · exact slot_out h1 hwf.heap_align (by omega) h4
      have hb3_slot : ∀ k, k < 512 → k ≠ p % 512 →
          (setMem
            { mem := fun x =>
                if s.heapStart ≤ x ∧ x < s.heapStart + 4096 then 0 else s.mem x
              heapStart := s.heapStart + 4096
              heapSize := s.heapSize - 4096 }
            (b3 + 8 * (p % 512)) (s.heapStart ||| 3)).mem (b3 + 8 * k) =
            s.mem (b3 + 8 * k) := by
        intro k h4 hne
        apply hmem_other
        · intro hcon
          exact hne (by omega)
        · exact slot_out hb3a hwf.heap_align hb3sne h4
      have hpml4_slot : ∀ k, k < 512 →
          (setMem
            { mem := fun x =>
                if s.heapStart ≤ x ∧ x < s.heapStart + 4096 then 0 else s.mem x
              heapStart := s.heapStart + 4096
              heapSize := s.heapSize - 4096 }
            (b3 + 8 * (p % 512)) (s.heapStart ||| 3)).mem (pml4 + 8 * k) =
            s.mem (pml4 + 8 * k) := by
        intro k h4
        apply hmem_other
        · exact slot_addr_ne hwf.root_align hb3a (Ne.symm hb3ne) h4 hpm
        · exact slot_out hwf.root_align hwf.heap_align hroot_ne h4
      refine ⟨{ f with l2 := fun j => if j = p then some s.heapStart else f.l2 j },
        ?_, by simp, rfl, rfl, rfl, rfl, ?_, ?_⟩
      · have hbase2 : ∀ pa b,
            Forest.base?
              { f with l2 := fun j => if j = p then some s.heapStart else f.l2 j }
              pml4 pa = some b →
            (pa = TPath.p2 p ∧ b = s.heapStart) ∨ Forest.base? f pml4 pa = some b := by
          intro pa b hb
          cases pa with
          | root => exact Or.inr hb
          | p3 j => exact Or.inr hb
          | p2 pk =>
            by_cases hj : pk = p
            · subst hj
              left
              refine ⟨rfl, ?_⟩
              simp [Forest.base?] at hb
              exact hb.symm
            · right
              simpa [Forest.base?, hj] using hb
          | p1 qk => exact Or.inr hb
        have hnew_not_old : ∀ pa, Forest.base? f pml4 pa = some s.heapStart → False := by
          intro pa hp2
          cases pa with
          | root =>
            simp only [Forest.base?, Option.some.injEq] at hp2
            exact hroot_ne hp2
          | p3 j =>
            have := hwf.sub_lt (TPath.p3 j) _ (fun h => TPath.noConfusion h) hp2
            omega
          | p2 pk =>
            have := hwf.sub_lt (TPath.p2 pk) _ (fun h => TPath.noConfusion h) hp2
            omega
          | p1 qk =>
            have := hwf.sub_lt (TPath.p1 qk) _ (fun h => TPath.noConfusion h) hp2
            omega
        refine
          { root_align := hwf.root_align
            heap_align := Nat.dvd_add hwf.heap_align ⟨1, rfl⟩
            root_disj := ?_
            base_align := ?_
            sub_lt := ?_
            inj := ?_
            dom3 := hwf.dom3
            dom2 := ?_
            dom1 := ?_
            hv_l1 := hwf.hv_l1
            dom0 := hwf.dom0
            ent3 := ?_
            ent2 := ?_
            ent1 := ?_
            ent0 := ?_ }
        · rcases hwf.root_disj with h | h
          · refine Or.inl ?_
            show pml4 + 4096 ≤ s.heapStart + 4096
            omega
          · refine Or.inr ?_
            show s.heapStart + 4096 + (s.heapSize - 4096) ≤ pml4
            omega
        · intro pa b hb
          rcases hbase2 pa b hb with ⟨_, rfl⟩ | hold
          · exact hwf.heap_align
          · exact hwf.base_align pa b hold
        · intro pa b hpa hb
          rcases hbase2 pa b hb with ⟨_, rfl⟩ | hold
          · show s.heapStart + 4096 ≤ s.heapStart + 4096
            omega
          · have := hwf.sub_lt pa b hpa hold
            show b + 4096 ≤ s.heapStart + 4096
            omega
        · intro pa qa b hpb hqb
          rcases hbase2 pa b hpb with ⟨hp1, hb1⟩ | hp2 <;>
            rcases hbase2 qa b hqb with ⟨hq1, hb2'⟩ | hq2
          · rw [hp1, hq1]
          · exact absurd (hb1 ▸ hq2) (fun h => hnew_not_old qa h)
          · exact absurd (hb2' ▸ hp2) (fun h => hnew_not_old pa h)
          · exact hwf.inj pa qa b hp2 hq2
        · intro j hj
          by_cases hje : j = p
          · refine ⟨?_, ?_⟩
            · rw [hje]; exact hp
            · show f.l3 (j / 512) ≠ none
              rw [hje, hb3]
              exact fun h => Option.noConfusion h
          · have hjo : f.l2 j ≠ none := by simpa [hje] using hj
            exact hwf.dom2 j hjo
        · intro q hq
          have h1 := hwf.dom1 q hq
          refine ⟨h1.1, ?_⟩
          by_cases hje : q / 512 = p
          · rw [hje]
            simp
          · simpa [hje] using h1.2
        · intro j hj
          constructor
          · intro hn
            rw [hpml4_slot j hj]
            exact (hwf.ent3 j hj).1 hn
          · intro b hb
            rw [hpml4_slot j hj]
            exact (hwf.ent3 j hj).2 b hb
        · intro j hj b3' hb3'
          have hb3'f : f.l3 (j / 512) = some b3' := hb3'
          by_cases hje : j = p
          · have hbb : b3' = b3 := by
              rw [hje, hb3] at hb3'f
              injection hb3'f with h
              exact h.symm
            constructor
            · intro hcon
              exfalso
              rw [hje] at hcon
              have hb4 : (if p = p then some s.heapStart else f.l2 p) = none :=
                hcon
              rw [if_pos rfl] at hb4
              exact Option.noConfusion hb4
            · intro b2' hb2'
              rw [hje] at hb2' ⊢
              have hb4 : (if p = p then some s.heapStart else f.l2 p) =
                  some b2' := hb2'
              rw [if_pos rfl] at hb4
              injection hb4 with hbx
              rw [hbb, hmem_at, hbx]
          · by_cases hde : j / 512 = p / 512
            · have hbb : b3' = b3 := by
                rw [hde, hb3] at hb3'f
                injection hb3'f with h
                exact h.symm
              have hmod : j % 512 ≠ p % 512 := fun hcon => hje (by omega)
              have he2 := hwf.ent2 j hj b3' (by rw [hbb] at hb3'f ⊢; exact hb3'f)
              rw [hbb] at he2
              constructor
              · intro hcon
                rw [hbb, hb3_slot (j % 512) (Nat.mod_lt _ (by omega)) hmod]
                exact he2.1 (by simpa [hje] using hcon)
              · intro b2' hb2'
                rw [hbb, hb3_slot (j % 512) (Nat.mod_lt _ (by omega)) hmod]
                exact he2.2 b2' (by simpa [hje] using hb2')
            · have hbne' : b3' ≠ b3 := by
                intro hcon
                have h1 : Forest.base? f pml4 (TPath.p3 (j / 512)) = some b3 := by
                  rw [← hcon]; exact hb3'f
                have := hwf.inj (TPath.p3 (j / 512)) (TPath.p3 (p / 512)) b3 h1 hb3
                injection this with h2
                exact hde h2
              have hba' : 4096 ∣ b3' := hwf.base_align (TPath.p3 (j / 512)) b3' hb3'f
              have hblt' : b3' + 4096 ≤ s.heapStart :=
                hwf.sub_lt (TPath.p3 (j / 512)) b3' (fun h => TPath.noConfusion h) hb3'f
              rw [hsub_slot b3' (j % 512) hba' hblt' hbne' (Nat.mod_lt _ (by omega))]
              refine ⟨?_, ?_⟩
              · intro hcon
                exact (hwf.ent2 j hj b3' hb3'f).1 (by simpa [hje] using hcon)
              · intro b2' hb2'
                exact (hwf.ent2 j hj b3' hb3'f).2 b2' (by simpa [hje] using hb2')
        · intro q hq b2' hb2'
          by_cases hqe : q / 512 = p
          · have hbb : b2' = s.heapStart := by
              rw [hqe] at hb2'
              have hb4 : (if p = p then some s.heapStart else f.l2 p) =
                  some b2' := hb2'
              rw [if_pos rfl] at hb4
              injection hb4 with hbx
              exact hbx.symm
            have hl1n : f.l1 q = none := by
              cases hc : f.l1 q with
              | none => rfl
              | some b =>
                exfalso
                have hd := hwf.dom1 q (Or.inl (by
                  rw [hc]; exact fun h => Option.noConfusion h))
                rw [hqe, hl] at hd
                exact hd.2 rfl
            have hhvn : f.hv q = none := by
              cases hc : f.hv q with
              | none => rfl
              | some v =>
                exfalso
                have hd := hwf.dom1 q (Or.inr (by
                  rw [hc]; exact fun h => Option.noConfusion h))
                rw [hqe, hl] at hd
                exact hd.2 rfl
            refine ⟨?_, ?_, ?_⟩
            · intro _ _
              rw [hbb,
                hmem_zero (s.heapStart + 8 * (q % 512))
                  (slot_addr_ne hwf.heap_align hb3a (by omega)
                    (Nat.mod_lt _ (by omega)) hpm)
                  (by omega)
                  (by have := Nat.mod_lt q (y := 512) (by omega); omega)]
            · intro b1 hb1
              exfalso
              have hxf : f.l1 q = some b1 := hb1
              rw [hl1n] at hxf
              exact Option.noConfusion hxf
            · intro v hv
              exfalso
              have hxf : f.hv q = some v := hv
              rw [hhvn] at hxf
              exact Option.noConfusion hxf
          · have hb2f : f.l2 (q / 512) = some b2' := by simpa [hqe] using hb2'
            have hba' : 4096 ∣ b2' := hwf.base_align (TPath.p2 (q / 512)) b2' hb2f
            have hblt' : b2' + 4096 ≤ s.heapStart :=
              hwf.sub_lt (TPath.p2 (q / 512)) b2' (fun h => TPath.noConfusion h) hb2f
            have hbne' : b2' ≠ b3 := by
              intro hcon
              have h1 : Forest.base? f pml4 (TPath.p2 (q / 512)) = some b3 := by
                rw [← hcon]; exact hb2f
              have := hwf.inj (TPath.p2 (q / 512)) (TPath.p3 (p / 512)) b3 h1 hb3
              exact TPath.noConfusion this
            rw [hsub_slot b2' (q % 512) hba' hblt' hbne' (Nat.mod_lt _ (by omega))]
            exact hwf.ent1 q hq b2' hb2f
        · intro pg b1 v hl1 hlv
          have hl1f : f.l1 (pg / 512) = some b1 := hl1
          have hba' : 4096 ∣ b1 := hwf.base_align (TPath.p1 (pg / 512)) b1 hl1f
          have hblt' : b1 + 4096 ≤ s.heapStart :=
            hwf.sub_lt (TPath.p1 (pg / 512)) b1 (fun h => TPath.noConfusion h) hl1f
          have hbne' : b1 ≠ b3 := by
            intro hcon
            have hb0 : Forest.base? f pml4 (TPath.p1 (pg / 512)) = some b3 := by
              rw [← hcon]; exact hl1f
            have := hwf.inj (TPath.p1 (pg / 512)) (TPath.p3 (p / 512)) b3 hb0 hb3
            exact TPath.noConfusion this
          rw [hsub_slot b1 (pg % 512) hba' hblt' hbne' (Nat.mod_lt _ (by omega))]
          exact hwf.ent0 pg b1 v hl1f hlv
      · intro j hj
        simp [hj]
      · intro b hb
        rw [hl] at hb
        exact Option.noConfusion hb

theorem gnt1 (pml4 : Nat) (f : Forest) (s : PageState) (q b2 b1 : Nat)
    (s2 : PageState) (hwf : WF pml4 f s) (hq : q < 134217728)
    (hb2 : f.l2 (q / 512) = some b2) (hhv : f.hv q = none)
    (hrun : get_next_table b2 (q % 512) s = some (b1, s2)) :
    ∃ f2, WF pml4 f2 s2 ∧
      f2.l1 q = some b1 ∧
      f2.l3 = f.l3 ∧ f2.l2 = f.l2 ∧ f2.hv = f.hv ∧ f2.lv = f.lv ∧
      (∀ j, j ≠ q → f2.l1 j = f.l1 j) ∧
      (∀ b, f.l1 q = some b → b1 = b ∧ s2 = s ∧ f2 = f) := by
  have hqm : q % 512 < 512 := Nat.mod_lt _ (by omega)
  have hb2a : 4096 ∣ b2 := hwf.base_align (TPath.p2 (q / 512)) b2 hb2
  have hb2lt : b2 + 4096 ≤ s.heapStart :=
    hwf.sub_lt (TPath.p2 (q / 512)) b2 (fun h => TPath.noConfusion h) hb2
  have hb2ne : b2 ≠ pml4 := by
    intro hcon
    have hb0 : Forest.base? f pml4 (TPath.p2 (q / 512)) = some pml4 := by
      rw [← hcon]; exact hb2
    have := hwf.inj (TPath.p2 (q / 512)) TPath.root pml4 hb0 rfl
    exact TPath.noConfusion this
  unfold get_next_table at hrun
  by_cases hpr : s.mem (b2 + 8 * (q % 512)) % 2 = 1
  · rw [if_pos hpr] at hrun
    cases hl : f.l1 q with
    | none =>
      exfalso
      have h0 := (hwf.ent1 q hq b2 hb2).1 hl hhv
      omega
    | some b =>
      have hm := (hwf.ent1 q hq b2 hb2).2.1 b hl
      have hba : 4096 ∣ b := hwf.base_align (TPath.p1 q) b hl
      rw [hm, lor3_div_mul b hba] at hrun
      simp only [Option.some.injEq, Prod.mk.injEq] at hrun
      obtain ⟨hb1e, hs2⟩ := hrun
      subst hb1e
      subst hs2
      refine ⟨f, hwf, hl, rfl, rfl, rfl, rfl, fun j _ => rfl, ?_⟩
      intro b' hb'
      injection hb' with hbb
      exact ⟨hbb, rfl, rfl⟩
  · rw [if_neg hpr] at hrun
    have hp0 : s.mem (b2 + 8 * (q % 512)) % 2 = 0 := by omega
    have hl : f.l1 q = none := by
      cases hc : f.l1 q with
      | none => rfl
      | some b =>
        exfalso
        have hm := (hwf.ent1 q hq b2 hb2).2.1 b hc
        have h1 := lor3_mod_two b
        rw [hm] at hp0
        omega
    unfold allocate_page at hrun
    by_cases hsz : s.heapSize < 4096
    · rw [if_pos hsz] at hrun
      simp at hrun
    · rw [if_neg hsz] at hrun
      simp only [Option.some.injEq, Prod.mk.injEq] at hrun
      obtain ⟨hb1e, hs2⟩ := hrun
      rw [Nat.div_mul_cancel hwf.heap_align] at hb1e
      subst hb1e
      subst hs2
      have hsz4 : 4096 ≤ s.heapSize := by omega
      have hroot_ne : pml4 ≠ s.heapStart := by
        rcases hwf.root_disj with h | h
        · omega
        · omega
      have hb2sne : b2 ≠ s.heapStart := by omega
      have hmem_at : ∀ v X,
          (setMem X (b2 + 8 * (q % 512)) v).mem (b2 + 8 * (q % 512)) = v := by
        intro v X
        show (if b2 + 8 * (q % 512) = b2 + 8 * (q % 512) then v
          else X.mem _) = v
        rw [if_pos rfl]
      have hmem_other : ∀ a, a ≠ b2 + 8 * (q % 512) →
          ¬(s.heapStart ≤ a ∧ a < s.heapStart + 4096) →
          (setMem
            { mem := fun x =>
                if s.heapStart ≤ x ∧ x < s.heapStart + 4096 then 0 else s.mem x
              heapStart := s.heapStart + 4096
              heapSize := s.heapSize - 4096 }
            (b2 + 8 * (q % 512)) (s.heapStart ||| 3)).mem a = s.mem a := by
        intro a h1 h2
        show (if a = b2 + 8 * (q % 512) then _
          else if s.heapStart ≤ a ∧ a < s.heapStart + 4096 then 0 else s.mem a) =
            s.mem a
        rw [if_neg h1, if_neg h2]
      have hmem_zero : ∀ a, a ≠ b2 + 8 * (q % 512) → s.heapStart ≤ a →
          a < s.heapStart + 4096 →
          (setMem
            { mem := fun x =>
                if s.heapStart ≤ x ∧ x < s.heapStart + 4096 then 0 else s.mem x
              heapStart := s.heapStart + 4096
              heapSize := s.heapSize - 4096 }
            (b2 + 8 * (q % 512)) (s.heapStart ||| 3)).mem a = 0 := by
        intro a h1 h2 h3
        show (if a = b2 + 8 * (q % 512) then _
          else if s.heapStart ≤ a ∧ a < s.heapStart + 4096 then 0 else s.mem a) = 0
        rw [if_neg h1, if_pos ⟨h2, h3⟩]
      have hsub_slot : ∀ t k, 4096 ∣ t → t + 4096 ≤ s.heapStart → t ≠ b2 →
          k < 512 →
          (setMem
            { mem := fun x =>
                if s.heapStart ≤ x ∧ x < s.heapStart + 4096 then 0 else s.mem x
              heapStart := s.heapStart + 4096
              heapSize := s.heapSize - 4096 }
            (b2 + 8 * (q % 512)) (s.heapStart ||| 3)).mem (t + 8 * k) =
            s.mem (t + 8 * k) := by
        intro t k h1 h2 h3 h4
        apply hmem_other
        · exact slot_addr_ne h1 hb2a h3 h4 hqm
        · exact slot_out h1 hwf.heap_align (by omega) h4
      have hb2_slot : ∀ k, k < 512 → k ≠ q % 512 →
          (setMem
            { mem := fun x =>
                if s.heapStart ≤ x ∧ x < s.heapStart + 4096 then 0 else s.mem x
              heapStart := s.heapStart + 4096
              heapSize := s.heapSize - 4096 }
            (b2 + 8 * (q % 512)) (s.heapStart ||| 3)).mem (b2 + 8 * k) =
            s.mem (b2 + 8 * k) := by
        intro k h4 hne
        apply hmem_other
        · intro hcon
          exact hne (by omega)
        · exact slot_out hb2a hwf.heap_align hb2sne h4
      have hpml4_slot : ∀ k, k < 512 →
          (setMem
            { mem := fun x =>
                if s.heapStart ≤ x ∧ x < s.heapStart + 4096 then 0 else s.mem x
              heapStart := s.heapStart + 4096
              heapSize := s.heapSize - 4096 }
            (b2 + 8 * (q % 512)) (s.heapStart ||| 3)).mem (pml4 + 8 * k) =
            s.mem (pml4 + 8 * k) := by
        intro k h4
        apply hmem_other
        · exact slot_addr_ne hwf.root_align hb2a (Ne.symm hb2ne) h4 hqm
        · exact slot_out hwf.root_align hwf.heap_align hroot_ne h4
      refine ⟨{ f with l1 := fun j => if j = q then some s.heapStart else f.l1 j },
        ?_, by simp, rfl, rfl, rfl, rfl, ?_, ?_⟩
      · have hbase2 : ∀ pa b,
            Forest.base?
              { f with l1 := fun j => if j = q then some s.heapStart else f.l1 j }
              pml4 pa = some b →
            (pa = TPath.p1 q ∧ b = s.heapStart) ∨ Forest.base? f pml4 pa = some b := by
          intro pa b hb
          cases pa with
          | root => exact Or.inr hb
          | p3 j => exact Or.inr hb
          | p2 pk => exact Or.inr hb
          | p1 qk =>
            by_cases hj : qk = q
            · subst hj
              left
              refine ⟨rfl, ?_⟩
              simp [Forest.base?] at hb
              exact hb.symm
            · right
              simpa [Forest.base?, hj] using hb
        have hnew_not_old : ∀ pa, Forest.base? f pml4 pa = some s.heapStart → False := by
          intro pa hp2
          cases pa with
          | root =>
            simp only [Forest.base?, Option.some.injEq] at hp2
            exact hroot_ne hp2
          | p3 j =>
            have := hwf.sub_lt (TPath.p3 j) _ (fun h => TPath.noConfusion h) hp2
            omega
          | p2 pk =>
            have := hwf.sub_lt (TPath.p2 pk) _ (fun h => TPath.noConfusion h) hp2
            omega
          | p1 qk =>
            have := hwf.sub_lt (TPath.p1 qk) _ (fun h => TPath.noConfusion h) hp2
            omega
        refine
          { root_align := hwf.root_align
            heap_align := Nat.dvd_add hwf.heap_align ⟨1, rfl⟩
            root_disj := ?_
            base_align := ?_
            sub_lt := ?_
            inj := ?_
            dom3 := hwf.dom3
            dom2 := hwf.dom2
            dom1 := ?_
            hv_l1 := ?_
            dom0 := ?_
            ent3 := ?_
            ent2 := ?_
            ent1 := ?_
            ent0 := ?_ }
        · rcases hwf.root_disj with h | h
          · refine Or.inl ?_
            show pml4 + 4096 ≤ s.heapStart + 4096
            omega
          · refine Or.inr ?_
            show s.heapStart + 4096 + (s.heapSize - 4096) ≤ pml4
            omega
        · intro pa b hb
          rcases hbase2 pa b hb with ⟨_, rfl⟩ | hold
          · exact hwf.heap_align
          · exact hwf.base_align pa b hold
        · intro pa b hpa hb
          rcases hbase2 pa b hb with ⟨_, rfl⟩ | hold
          · show s.heapStart + 4096 ≤ s.heapStart + 4096
            omega
          · have := hwf.sub_lt pa b hpa hold
            show b + 4096 ≤ s.heapStart + 4096
            omega
        · intro pa qa b hpb hqb
          rcases hbase2 pa b hpb with ⟨hp1, hb1'⟩ | hp2 <;>
            rcases hbase2 qa b hqb with ⟨hq1, hb2'⟩ | hq2
          · rw [hp1, hq1]
          · exact absurd (hb1' ▸ hq2) (fun h => hnew_not_old qa h)
          · exact absurd (hb2' ▸ hp2) (fun h => hnew_not_old pa h)
          · exact hwf.inj pa qa b hp2 hq2
        · intro j hj
          by_cases hje : j = q
          · refine ⟨?_, ?_⟩
            · rw [hje]; exact hq
            · show f.l2 (j / 512) ≠ none
              rw [hje, hb2]
              exact fun h => Option.noConfusion h
          · have hjo : f.l1 j ≠ none ∨ f.hv j ≠ none := by
              rcases hj with h | h
              · left; simpa [hje] using h
              · right; exact h
            exact hwf.dom1 j hjo
        · intro j hj
          by_cases hje : j = q
          · exfalso
            rw [hje] at hj
            exact hj hhv
          · show (if j = q then some s.heapStart else f.l1 j) = none
            rw [if_neg hje]
            exact hwf.hv_l1 j hj
        · intro pg hpg
          have h1 := hwf.dom0 pg hpg
          refine ⟨h1.1, ?_⟩
          by_cases hje : pg / 512 = q
          · rw [hje]
            simp
          · simpa [hje] using h1.2
        · intro j hj
          constructor
          · intro hn
            rw [hpml4_slot j hj]
            exact (hwf.ent3 j hj).1 hn
          · intro b hb
            rw [hpml4_slot j hj]
            exact (hwf.ent3 j hj).2 b hb
        · intro j hj b3' hb3'
          have hb3'f : f.l3 (j / 512) = some b3' := hb3'
          have hba' : 4096 ∣ b3' := hwf.base_align (TPath.p3 (j / 512)) b3' hb3'f
          have hblt' : b3' + 4096 ≤ s.heapStart :=
            hwf.sub_lt (TPath.p3 (j / 512)) b3' (fun h => TPath.noConfusion h) hb3'f
          have hbne' : b3' ≠ b2 := by
            intro hcon
            have h1 : Forest.base? f pml4 (TPath.p3 (j / 512)) = some b2 := by
              rw [← hcon]; exact hb3'f
            have := hwf.inj (TPath.p3 (j / 512)) (TPath.p2 (q / 512)) b2 h1 hb2
            exact TPath.noConfusion this
          rw [hsub_slot b3' (j % 512) hba' hblt' hbne' (Nat.mod_lt _ (by omega))]
          exact hwf.ent2 j hj b3' hb3'f
        · intro j hj b2' hb2'
          have hb2'f : f.l2 (j / 512) = some b2' := hb2'
          by_cases hje : j = q
          · have hbb : b2' = b2 := by
              rw [hje, hb2] at hb2'f
              injection hb2'f with h
              exact h.symm
            refine ⟨?_, ?_, ?_⟩
            · intro hcon _
              exfalso
              rw [hje] at hcon
              have hb4 : (if q = q then some s.heapStart else f.l1 q) = none :=
                hcon
              rw [if_pos rfl] at hb4
              exact Option.noConfusion hb4
            · intro b1' hb1'
              rw [hje] at hb1' ⊢
              have hb4 : (if q = q then some s.heapStart else f.l1 q) =
                  some b1' := hb1'
              rw [if_pos rfl] at hb4
              injection hb4 with hbx
              rw [hbb, hmem_at, hbx]
            · intro v hv'
              exfalso
              have hxf : f.hv j = some v := hv'
              rw [hje, hhv] at hxf
              exact Option.noConfusion hxf
          · by_cases hde : j / 512 = q / 512
            · have hbb : b2' = b2 := by
                rw [hde, hb2] at hb2'f
                injection hb2'f with h
                exact h.symm
              have hmod : j % 512 ≠ q % 512 := fun hcon => hje (by omega)
              have he1 := hwf.ent1 j hj b2' hb2'f
              rw [hbb] at he1
              refine ⟨?_, ?_, ?_⟩
              · intro hcon hhv'
                rw [hbb, hb2_slot (j % 512) (Nat.mod_lt _ (by omega)) hmod]
                exact he1.1 (by simpa [hje] using hcon) hhv'
              · intro b1' hb1'
                rw [hbb, hb2_slot (j % 512) (Nat.mod_lt _ (by omega)) hmod]
                exact he1.2.1 b1' (by simpa [hje] using hb1')
              · intro v hv'
                rw [hbb, hb2_slot (j % 512) (Nat.mod_lt _ (by omega)) hmod]
                exact he1.2.2 v hv'
            · have hbne' : b2' ≠ b2 := by
                intro hcon
                have h1 : Forest.base? f pml4 (TPath.p2 (j / 512)) = some b2 := by
                  rw [← hcon]; exact hb2'f
                have := hwf.inj (TPath.p2 (j / 512)) (TPath.p2 (q / 512)) b2 h1 hb2
                injection this with h2
                exact hde h2
              have hba' : 4096 ∣ b2' := hwf.base_align (TPath.p2 (j / 512)) b2' hb2'f
              have hblt' : b2' + 4096 ≤ s.heapStart :=
                hwf.sub_lt (TPath.p2 (j / 512)) b2' (fun h => TPath.noConfusion h) hb2'f
              rw [hsub_slot b2' (j % 512) hba' hblt' hbne' (Nat.mod_lt _ (by omega))]
              have he1 := hwf.ent1 j hj b2' hb2'f
              refine ⟨?_, ?_, ?_⟩
              · intro hcon hhv'
                exact he1.1 (by simpa [hje] using hcon) hhv'
              · intro b1' hb1'
                exact he1.2.1 b1' (by simpa [hje] using hb1')
              · intro v hv'
                exact he1.2.2 v hv'
        · intro pg b1' v hl1' hlv'
          have hlvf : f.lv pg = some v := hlv'
          by_cases hpe : pg / 512 = q
          · exfalso
            have hd := hwf.dom0 pg (by
              rw [hlvf]; exact fun h => Option.noConfusion h)
            rw [hpe, hl] at hd
            exact hd.2 rfl
          · have hl1f : f.l1 (pg / 512) = some b1' := by simpa [hpe] using hl1'
            have hba' : 4096 ∣ b1' := hwf.base_align (TPath.p1 (pg / 512)) b1' hl1f
            have hblt' : b1' + 4096 ≤ s.heapStart :=
              hwf.sub_lt (TPath.p1 (pg / 512)) b1' (fun h => TPath.noConfusion h) hl1f
            have hbne' : b1' ≠ b2 := by
              intro hcon
              have hb0 : Forest.base? f pml4 (TPath.p1 (pg / 512)) = some b2 := by
                rw [← hcon]; exact hl1f
              have := hwf.inj (TPath.p1 (pg / 512)) (TPath.p2 (q / 512)) b2 hb0 hb2
              exact TPath.noConfusion this
            rw [hsub_slot b1' (pg % 512) hba' hblt' hbne' (Nat.mod_lt _ (by omega))]
            exact hwf.ent0 pg b1' v hl1f hlvf
      · intro j hj
        simp [hj]
      · intro b hb
        rw [hl] at hb
        exact Option.noConfusion hb

theorem gnt_present (table idx b : Nat) (s : PageState)
    (hm : s.mem (table + 8 * idx) = b ||| 3) (hb : 4096 ∣ b) :
    get_next_table table idx s = some (b, s) := by
  unfold get_next_table
  rw [hm, if_pos (lor3_mod_two b), lor3_div_mul b hb]

theorem LW_huge (pml4 : Nat) (f : Forest) (s : PageState) (q b2 v : Nat)
    (hwf : WF pml4 f s) (hq : q < 134217728)
    (hb2 : f.l2 (q / 512) = some b2) :
    WF pml4
      { f with l1 := fun j => if j = q then none else f.l1 j
               hv := fun j => if j = q then some v else f.hv j
               lv := fun g => if g / 512 = q then none else f.lv g }
      (setMem s (b2 + 8 * (q % 512)) v) := by
  have hqm : q % 512 < 512 := Nat.mod_lt _ (by omega)
  have hb2a : 4096 ∣ b2 := hwf.base_align (TPath.p2 (q / 512)) b2 hb2
  have hb2lt : b2 + 4096 ≤ s.heapStart :=
    hwf.sub_lt (TPath.p2 (q / 512)) b2 (fun h => TPath.noConfusion h) hb2
  have hb2ne : b2 ≠ pml4 := by
    intro hcon
    have hb0 : Forest.base? f pml4 (TPath.p2 (q / 512)) = some pml4 := by
      rw [← hcon]; exact hb2
    have := hwf.inj (TPath.p2 (q / 512)) TPath.root pml4 hb0 rfl
    exact TPath.noConfusion this
  have hmem_at :
      (setMem s (b2 + 8 * (q % 512)) v).mem (b2 + 8 * (q % 512)) = v := by
    show (if b2 + 8 * (q % 512) = b2 + 8 * (q % 512) then v
      else s.mem _) = v
    rw [if_pos rfl]
  have hmem_other : ∀ a, a ≠ b2 + 8 * (q % 512) →
      (setMem s (b2 + 8 * (q % 512)) v).mem a = s.mem a := by
    intro a h1
    show (if a = b2 + 8 * (q % 512) then v else s.mem a) = s.mem a
    rw [if_neg h1]
  have hsub_slot : ∀ t k, 4096 ∣ t → t ≠ b2 → k < 512 →
      (setMem s (b2 + 8 * (q % 512)) v).mem (t + 8 * k) =
        s.mem (t + 8 * k) := by
    intro t k h1 h3 h4
    exact hmem_other _ (slot_addr_ne h1 hb2a h3 h4 hqm)
  have hb2_slot : ∀ k, k < 512 → k ≠ q % 512 →
      (setMem s (b2 + 8 * (q % 512)) v).mem (b2 + 8 * k) =
        s.mem (b2 + 8 * k) := by
    intro k h4 hne
    apply hmem_other
    intro hcon
    exact hne (by omega)
  have hpml4_slot : ∀ k, k < 512 →
      (setMem s (b2 + 8 * (q % 512)) v).mem (pml4 + 8 * k) =
        s.mem (pml4 + 8 * k) := by
    intro k h4
    exact hmem_other _ (slot_addr_ne hwf.root_align hb2a (Ne.symm hb2ne) h4 hqm)
  have hbase2 : ∀ pa b,
      Forest.base?
        { f with l1 := fun j => if j = q then none else f.l1 j
                 hv := fun j => if j = q then some v else f.hv j
                 lv := fun g => if g / 512 = q then none else f.lv g }
        pml4 pa = some b →
      Forest.base? f pml4 pa = some b := by
    intro pa b hb
    cases pa with
    | root => exact hb
    | p3 j => exact hb
    | p2 pk => exact hb
    | p1 qk =>
      by_cases hj : qk = q
      · exfalso
        have hb4 : (if qk = q then none else f.l1 qk) = some b := hb
        rw [if_pos hj] at hb4
        exact Option.noConfusion hb4
      · have hb4 : (if qk = q then none else f.l1 qk) = some b := hb
        rw [if_neg hj] at hb4
        exact hb4
  refine
    { root_align := hwf.root_align
      heap_align := hwf.heap_align
      root_disj := hwf.root_disj
      base_align := fun pa b hb => hwf.base_align pa b (hbase2 pa b hb)
      sub_lt := fun pa b hpa hb => hwf.sub_lt pa b hpa (hbase2 pa b hb)
      inj := fun pa qa b hpb hqb =>
        hwf.inj pa qa b (hbase2 pa b hpb) (hbase2 qa b hqb)
      dom3 := hwf.dom3
      dom2 := hwf.dom2
      dom1 := ?_
      hv_l1 := ?_
      dom0 := ?_
      ent3 := ?_
      ent2 := ?_
      ent1 := ?_
      ent0 := ?_ }
  · intro j hj
    by_cases hje : j = q
    · refine ⟨?_, ?_⟩
      · rw [hje]; exact hq
      · show f.l2 (j / 512) ≠ none
        rw [hje, hb2]
        exact fun h => Option.noConfusion h
    · have hjo : f.l1 j ≠ none ∨ f.hv j ≠ none := by
        rcases hj with h | h
        · left; simpa [hje] using h
        · right; simpa [hje] using h
      exact hwf.dom1 j hjo
  · intro j hj
    by_cases hje : j = q
    · show (if j = q then none else f.l1 j) = none
      rw [if_pos hje]
    · show (if j = q then none else f.l1 j) = none
      rw [if_neg hje]
      exact hwf.hv_l1 j (by simpa [hje] using hj)
  · intro pg hpg
    by_cases hpe : pg / 512 = q
    · exfalso
      apply hpg
      show (if pg / 512 = q then none else f.lv pg) = none
      rw [if_pos hpe]
    · have hlvne : f.lv pg ≠ none := by simpa [hpe] using hpg
      have h1 := hwf.dom0 pg hlvne
      refine ⟨h1.1, ?_⟩
      show (if pg / 512 = q then none else f.l1 (pg / 512)) ≠ none
      rw [if_neg hpe]
      exact h1.2
  · intro j hj
    constructor
    · intro hn
      rw [hpml4_slot j hj]
      exact (hwf.ent3 j hj).1 hn
    · intro b hb
      rw [hpml4_slot j hj]
      exact (hwf.ent3 j hj).2 b hb
  · intro j hj b3' hb3'
    have hb3'f : f.l3 (j / 512) = some b3' := hb3'
    have hba' : 4096 ∣ b3' := hwf.base_align (TPath.p3 (j / 512)) b3' hb3'f
    have hbne' : b3' ≠ b2 := by
      intro hcon
      have h1 : Forest.base? f pml4 (TPath.p3 (j / 512)) = some b2 := by
        rw [← hcon]; exact hb3'f
      have := hwf.inj (TPath.p3 (j / 512)) (TPath.p2 (q / 512)) b2 h1 hb2
      exact TPath.noConfusion this
    rw [hsub_slot b3' (j % 512) hba' hbne' (Nat.mod_lt _ (by omega))]
    exact hwf.ent2 j hj b3' hb3'f
  · intro j hj b2' hb2'
    have hb2'f : f.l2 (j / 512) = some b2' := hb2'
    by_cases hje : j = q
    · have hbb : b2' = b2 := by
        rw [hje, hb2] at hb2'f
        injection hb2'f with h
        exact h.symm
      refine ⟨?_, ?_, ?_⟩
      · intro _ hcon
        exfalso
        rw [hje] at hcon
        have hb4 : (if q = q then some v else f.hv q) = none := hcon
        rw [if_pos rfl] at hb4
        exact Option.noConfusion hb4
      · intro b1' hb1'
        exfalso
        rw [hje] at hb1'
        have hb4 : (if q = q then none else f.l1 q) = some b1' := hb1'
        rw [if_pos rfl] at hb4
        exact Option.noConfusion hb4
      · intro w hw
        rw [hje] at hw ⊢
        have hb4 : (if q = q then some v else f.hv q) = some w := hw
        rw [if_pos rfl] at hb4
        injection hb4 with hbx
        rw [hbb, hmem_at, hbx]
    · by_cases hde : j / 512 = q / 512
      · have hbb : b2' = b2 := by
          rw [hde, hb2] at hb2'f
          injection hb2'f with h
          exact h.symm
        have hmod : j % 512 ≠ q % 512 := fun hcon => hje (by omega)
        have he1 := hwf.ent1 j hj b2' hb2'f
        rw [hbb] at he1
        refine ⟨?_, ?_, ?_⟩
        · intro hcon hhv'
          rw [hbb, hb2_slot (j % 512) (Nat.mod_lt _ (by omega)) hmod]
          exact he1.1 (by simpa [hje] using hcon) (by simpa [hje] using hhv')
        · intro b1' hb1'
          rw [hbb, hb2_slot (j % 512) (Nat.mod_lt _ (by omega)) hmod]
          exact he1.2.1 b1' (by simpa [hje] using hb1')
        · intro w hw
          rw [hbb, hb2_slot (j % 512) (Nat.mod_lt _ (by omega)) hmod]
          exact he1.2.2 w (by simpa [hje] using hw)
      · have hbne' : b2' ≠ b2 := by
          intro hcon
          have h1 : Forest.base? f pml4 (TPath.p2 (j / 512)) = some b2 := by
            rw [← hcon]; exact hb2'f
          have := hwf.inj (TPath.p2 (j / 512)) (TPath.p2 (q / 512)) b2 h1 hb2
          injection this with h2
          exact hde h2
        have hba' : 4096 ∣ b2' := hwf.base_align (TPath.p2 (j / 512)) b2' hb2'f
        rw [hsub_slot b2' (j % 512) hba' hbne' (Nat.mod_lt _ (by omega))]
        have he1 := hwf.ent1 j hj b2' hb2'f
        refine ⟨?_, ?_, ?_⟩
        · intro hcon hhv'
          exact he1.1 (by simpa [hje] using hcon) (by simpa [hje] using hhv')
        · intro b1' hb1'
          exact he1.2.1 b1' (by simpa [hje] using hb1')
        · intro w hw
          exact he1.2.2 w (by simpa [hje] using hw)
  · intro pg b1' w hl1' hlv'
    by_cases hpe : pg / 512 = q
    · exfalso
      rw [hpe] at hl1'
      have hb4 : (if q = q then none else f.l1 q) = some b1' := hl1'
      rw [if_pos rfl] at hb4
      exact Option.noConfusion hb4
    · have hl1f : f.l1 (pg / 512) = some b1' := by simpa [hpe] using hl1'
      have hlvf : f.lv pg = some w := by simpa [hpe] using hlv'
      have hba' : 4096 ∣ b1' := hwf.base_align (TPath.p1 (pg / 512)) b1' hl1f
      have hbne' : b1' ≠ b2 := by
        intro hcon
        have hb0 : Forest.base? f pml4 (TPath.p1 (pg / 512)) = some b2 := by
          rw [← hcon]; exact hl1f
        have := hwf.inj (TPath.p1 (pg / 512)) (TPath.p2 (q / 512)) b2 hb0 hb2
        exact TPath.noConfusion this
      rw [hsub_slot b1' (pg % 512) hba' hbne' (Nat.mod_lt _ (by omega))]
      exact hwf.ent0 pg b1' w hl1f hlvf

theorem LW_4kb (pml4 : Nat) (f : Forest) (s : PageState) (pg b1 w : Nat)
    (hwf : WF pml4 f s) (hpg : pg < 68719476736)
    (hb1 : f.l1 (pg / 512) = some b1) :
    WF pml4
      { f with lv := fun g => if g = pg then some w else f.lv g }
      (setMem s (b1 + 8 * (pg % 512)) w) := by
  have hgm : pg % 512 < 512 := Nat.mod_lt _ (by omega)
  have hb1a : 4096 ∣ b1 := hwf.base_align (TPath.p1 (pg / 512)) b1 hb1
  have hb1ne : b1 ≠ pml4 := by
    intro hcon
    have hb0 : Forest.base? f pml4 (TPath.p1 (pg / 512)) = some pml4 := by
      rw [← hcon]; exact hb1
    have := hwf.inj (TPath.p1 (pg / 512)) TPath.root pml4 hb0 rfl
    exact TPath.noConfusion this
  have hmem_at :
      (setMem s (b1 + 8 * (pg % 512)) w).mem (b1 + 8 * (pg % 512)) = w := by
    show (if b1 + 8 * (pg % 512) = b1 + 8 * (pg % 512) then w
      else s.mem _) = w
    rw [if_pos rfl]
  have hmem_other : ∀ a, a ≠ b1 + 8 * (pg % 512) →
      (setMem s (b1 + 8 * (pg % 512)) w).mem a = s.mem a := by
    intro a h1
    show (if a = b1 + 8 * (pg % 512) then w else s.mem a) = s.mem a
    rw [if_neg h1]
  have hsub_slot : ∀ t k, 4096 ∣ t → t ≠ b1 → k < 512 →
      (setMem s (b1 + 8 * (pg % 512)) w).mem (t + 8 * k) =
        s.mem (t + 8 * k) := by
    intro t k h1 h3 h4
    exact hmem_other _ (slot_addr_ne h1 hb1a h3 h4 hgm)
  have hb1_slot : ∀ k, k < 512 → k ≠ pg % 512 →
      (setMem s (b1 + 8 * (pg % 512)) w).mem (b1 + 8 * k) =
        s.mem (b1 + 8 * k) := by
    intro k h4 hne
    apply hmem_other
    intro hcon
    exact hne (by omega)
  have hpml4_slot : ∀ k, k < 512 →
      (setMem s (b1 + 8 * (pg % 512)) w).mem (pml4 + 8 * k) =
        s.mem (pml4 + 8 * k) := by
    intro k h4
    exact hmem_other _ (slot_addr_ne hwf.root_align hb1a (Ne.symm hb1ne) h4 hgm)
  refine
    { root_align := hwf.root_align
      heap_align := hwf.heap_align
      root_disj := hwf.root_disj
      base_align := hwf.base_align
      sub_lt := hwf.sub_lt
      inj := hwf.inj
      dom3 := hwf.dom3
      dom2 := hwf.dom2
      dom1 := hwf.dom1
      hv_l1 := hwf.hv_l1
      dom0 := ?_
      ent3 := ?_
      ent2 := ?_
      ent1 := ?_
      ent0 := ?_ }
  · intro g hg
    by_cases hge : g = pg
    · refine ⟨?_, ?_⟩
      · rw [hge]; exact hpg
      · show f.l1 (g / 512) ≠ none
        rw [hge, hb1]
        exact fun h => Option.noConfusion h
    · have hgo : f.lv g ≠ none := by simpa [hge] using hg
      exact hwf.dom0 g hgo
  · intro j hj
    constructor
    · intro hn
      rw [hpml4_slot j hj]
      exact (hwf.ent3 j hj).1 hn
    · intro b hb
      rw [hpml4_slot j hj]
      exact (hwf.ent3 j hj).2 b hb
  · intro j hj b3' hb3'
    have hb3'f : f.l3 (j / 512) = some b3' := hb3'
    have hba' : 4096 ∣ b3' := hwf.base_align (TPath.p3 (j / 512)) b3' hb3'f
    have hbne' : b3' ≠ b1 := by
      intro hcon
      have h1 : Forest.base? f pml4 (TPath.p3 (j / 512)) = some b1 := by
        rw [← hcon]; exact hb3'f
      have := hwf.inj (TPath.p3 (j / 512)) (TPath.p1 (pg / 512)) b1 h1 hb1
      exact TPath.noConfusion this
    rw [hsub_slot b3' (j % 512) hba' hbne' (Nat.mod_lt _ (by omega))]
    exact hwf.ent2 j hj b3' hb3'f
  · intro j hj b2' hb2'
    have hb2'f : f.l2 (j / 512) = some b2' := hb2'
    have hba' : 4096 ∣ b2' := hwf.base_align (TPath.p2 (j / 512)) b2' hb2'f
    have hbne' : b2' ≠ b1 := by
      intro hcon
      have h1 : Forest.base? f pml4 (TPath.p2 (j / 512)) = some b1 := by
        rw [← hcon]; exact hb2'f
      have := hwf.inj (TPath.p2 (j / 512)) (TPath.p1 (pg / 512)) b1 h1 hb1
      exact TPath.noConfusion this
    rw [hsub_slot b2' (j % 512) hba' hbne' (Nat.mod_lt _ (by omega))]
    exact hwf.ent1 j hj b2' hb2'f
  · intro g b1' w' hl1' hlv'
    have hl1f : f.l1 (g / 512) = some b1' := hl1'
    by_cases hge : g = pg
    · have hbb : b1' = b1 := by
        rw [hge, hb1] at hl1f
        injection hl1f with h
        exact h.symm
      rw [hge] at hlv' ⊢
      have hb4 : (if pg = pg then some w else f.lv pg) = some w' := hlv'
      rw [if_pos rfl] at hb4
      injection hb4 with hbx
      rw [hbb, hmem_at, hbx]
    · by_cases hde : g / 512 = pg / 512
      · have hbb : b1' = b1 := by
          rw [hde, hb1] at hl1f
          injection hl1f with h
          exact h.symm
        have hmod : g % 512 ≠ pg % 512 := fun hcon => hge (by omega)
        have hlvf : f.lv g = some w' := by simpa [hge] using hlv'
        have he0 := hwf.ent0 g b1' w' (by rw [hbb] at hl1f ⊢; exact hl1f) hlvf
        rw [hbb] at he0 ⊢
        rw [hb1_slot (g % 512) (Nat.mod_lt _ (by omega)) hmod]
        exact he0
      · have hbne' : b1' ≠ b1 := by
          intro hcon
          have h1 : Forest.base? f pml4 (TPath.p1 (g / 512)) = some b1 := by
            rw [← hcon]; exact hl1f
          have := hwf.inj (TPath.p1 (g / 512)) (TPath.p1 (pg / 512)) b1 h1 hb1
          injection this with h2
          exact hde h2
        have hba' : 4096 ∣ b1' := hwf.base_align (TPath.p1 (g / 512)) b1' hl1f
        have hlvf : f.lv g = some w' := by simpa [hge] using hlv'
        rw [hsub_slot b1' (g % 512) hba' hbne' (Nat.mod_lt _ (by omega))]
        exact hwf.ent0 g b1' w' hl1f hlvf

theorem map_loop_ge (pml4 flags endA fuel addr : Nat) (s : PageState)
    (hlt : ¬addr < endA) :
    map_loop pml4 flags endA (fuel + 1) addr s = some s := by
  show (if addr < endA then
      match get_next_table pml4 (addr / 549755813888 % 512) s with
      | none => none
      | some (pdp, s1) =>
        match get_next_table pdp (addr / 1073741824 % 512) s1 with
        | none => none
        | some (pd, s2) =>
          if addr % 2097152 = 0 ∧ 2097152 ≤ endA - addr then
            map_loop pml4 flags endA fuel (addr + 2097152)
              (setMem s2 (pd + 8 * (addr / 2097152 % 512))
                (addr ||| (flags ||| PAGE_PS)))
          else
            match get_next_table pd (addr / 2097152 % 512) s2 with
            | none => none
            | some (pt, s3) =>
              map_loop pml4 flags endA fuel (addr + 4096)
                (setMem s3 (pt + 8 * (addr / 4096 % 512))
                  (addr |||
                    (if flags &&& USE_PAT_WC ≠ 0 then
                      (flags &&& 18446744073709547519) ||| PAGE_PAT_4KB
                    else flags)))
    else some s) = some s
  rw [if_neg hlt]

theorem map_loop_none3 (pml4 flags endA fuel addr : Nat) (s : PageState)
    (hlt : addr < endA)
    (h3 : get_next_table pml4 (addr / 549755813888 % 512) s = none) :
    map_loop pml4 flags endA (fuel + 1) addr s = none := by
  show (if addr < endA then
      match get_next_table pml4 (addr / 549755813888 % 512) s with
      | none => none
      | some (pdp, s1) =>
        match get_next_table pdp (addr / 1073741824 % 512) s1 with
        | none => none
        | some (pd, s2) =>
          if addr % 2097152 = 0 ∧ 2097152 ≤ endA - addr then
            map_loop pml4 flags endA fuel (addr + 2097152)
              (setMem s2 (pd + 8 * (addr / 2097152 % 512))
                (addr ||| (flags ||| PAGE_PS)))
          else
            match get_next_table pd (addr / 2097152 % 512) s2 with
            | none => none
            | some (pt, s3) =>
              map_loop pml4 flags endA fuel (addr + 4096)
                (setMem s3 (pt + 8 * (addr / 4096 % 512))
                  (addr |||
                    (if flags &&& USE_PAT_WC ≠ 0 then
                      (flags &&& 18446744073709547519) ||| PAGE_PAT_4KB
                    else flags)))
    else some s) = none
  rw [if_pos hlt, h3]

theorem map_loop_none2 (pml4 flags endA fuel addr : Nat) (s : PageState)
    (hlt : addr < endA) (pdp : Nat) (s1 : PageState)
    (h3 : get_next_table pml4 (addr / 549755813888 % 512) s = some (pdp, s1))
    (h2 : get_next_table pdp (addr / 1073741824 % 512) s1 = none) :
    map_loop pml4 flags endA (fuel + 1) addr s = none := by
  show (if addr < endA then
      match get_next_table pml4 (addr / 549755813888 % 512) s with
      | none => none
      | some (pdp, s1) =>
        match get_next_table pdp (addr / 1073741824 % 512) s1 with
        | none => none
        | some (pd, s2) =>
          if addr % 2097152 = 0 ∧ 2097152 ≤ endA - addr then
            map_loop pml4 flags endA fuel (addr + 2097152)
              (setMem s2 (pd + 8 * (addr / 2097152 % 512))
                (addr ||| (flags ||| PAGE_PS)))
          else
            match get_next_table pd (addr / 2097152 % 512) s2 with
            | none => none
            | some (pt, s3) =>
              map_loop pml4 flags endA fuel (addr + 4096)
                (setMem s3 (pt + 8 * (addr / 4096 % 512))
                  (addr |||
                    (if flags &&& USE_PAT_WC ≠ 0 then
                      (flags &&& 18446744073709547519) ||| PAGE_PAT_4KB
                    else flags)))
    else some s) = none
  rw [if_pos hlt, h3]
  show (match get_next_table pdp (addr / 1073741824 % 512) s1 with
      | none => none
      | some (pd, s2) =>
        if addr % 2097152 = 0 ∧ 2097152 ≤ endA - addr then
          map_loop pml4 flags endA fuel (addr + 2097152)
            (setMem s2 (pd + 8 * (addr / 2097152 % 512))
              (addr ||| (flags ||| PAGE_PS)))
        else
          match get_next_table pd (addr / 2097152 % 512) s2 with
          | none => none
          | some (pt, s3) =>
            map_loop pml4 flags endA fuel (addr + 4096)
              (setMem s3 (pt + 8 * (addr / 4096 % 512))
                (addr |||
                  (if flags &&& USE_PAT_WC ≠ 0 then
                    (flags &&& 18446744073709547519) ||| PAGE_PAT_4KB
                  else flags)))) = none
  rw [h2]

theorem map_loop_step (pml4 flags endA fuel addr : Nat) (s : PageState)
    (hlt : addr < endA) (pdp : Nat) (s1 : PageState)
    (h3 : get_next_table pml4 (addr / 549755813888 % 512) s = some (pdp, s1))
    (pd : Nat) (s2 : PageState)
    (h2 : get_next_table pdp (addr / 1073741824 % 512) s1 = some (pd, s2)) :
    map_loop pml4 flags endA (fuel + 1) addr s =
      if addr % 2097152 = 0 ∧ 2097152 ≤ endA - addr then
        map_loop pml4 flags endA fuel (addr + 2097152)
          (setMem s2 (pd + 8 * (addr / 2097152 % 512))
            (addr ||| (flags ||| PAGE_PS)))
      else
        match get_next_table pd (addr / 2097152 % 512) s2 with
        | none => none
        | some (pt, s3) =>
          map_loop pml4 flags endA fuel (addr + 4096)
            (setMem s3 (pt + 8 * (addr / 4096 % 512))
              (addr |||
                (if flags &&& USE_PAT_WC ≠ 0 then
                  (flags &&& 18446744073709547519) ||| PAGE_PAT_4KB
                else flags))) := by
  show (if addr < endA then
      match get_next_table pml4 (addr / 549755813888 % 512) s with
      | none => none
      | some (pdp, s1) =>
        match get_next_table pdp (addr / 1073741824 % 512) s1 with
        | none => none
        | some (pd, s2) =>
          if addr % 2097152 = 0 ∧ 2097152 ≤ endA - addr then
            map_loop pml4 flags endA fuel (addr + 2097152)
              (setMem s2 (pd + 8 * (addr / 2097152 % 512))
                (addr ||| (flags ||| PAGE_PS)))
          else
            match get_next_table pd (addr / 2097152 % 512) s2 with
            | none => none
            | some (pt, s3) =>
              map_loop pml4 flags endA fuel (addr + 4096)
                (setMem s3 (pt + 8 * (addr / 4096 % 512))
                  (addr |||
                    (if flags &&& USE_PAT_WC ≠ 0 then
                      (flags &&& 18446744073709547519) ||| PAGE_PAT_4KB
                    else flags)))
    else some s) = _
  rw [if_pos hlt, h3]
  show (match get_next_table pdp (addr / 1073741824 % 512) s1 with
      | none => none
      | some (pd, s2) =>
        if addr % 2097152 = 0 ∧ 2097152 ≤ endA - addr then
          map_loop pml4 flags endA fuel (addr + 2097152)
            (setMem s2 (pd + 8 * (addr / 2097152 % 512))
              (addr ||| (flags ||| PAGE_PS)))
        else
          match get_next_table pd (addr / 2097152 % 512) s2 with
          | none => none
          | some (pt, s3) =>
            map_loop pml4 flags endA fuel (addr + 4096)
              (setMem s3 (pt + 8 * (addr / 4096 % 512))
                (addr |||
                  (if flags &&& USE_PAT_WC ≠ 0 then
                    (flags &&& 18446744073709547519) ||| PAGE_PAT_4KB
                  else flags)))) = _
  rw [h2]

theorem map_loop_good (pml4 flags endA : Nat)
    (hend : endA ≤ 281474976710656) :
    ∀ fuel addr f s s2, WF pml4 f s → addr % 4096 = 0 →
      Compat f addr endA →
      map_loop pml4 flags endA fuel addr s = some s2 →
      ∃ f2, WF pml4 f2 s2 ∧ Mono f f2 ∧ FrameLow addr f f2 ∧
        map_loop pml4 flags endA fuel addr s2 = some s2 := by
  intro fuel
  induction fuel with
  | zero =>
    intro addr f s s2 _ _ _ hrun
    exact Option.noConfusion hrun
  | succ n ih =>
    intro addr f s s2 hwf ha4 hC hrun
    by_cases hlt : addr < endA
    · cases hg3 : get_next_table pml4 (addr / 549755813888 % 512) s with
      | none =>
        rw [map_loop_none3 pml4 flags endA n addr s hlt hg3] at hrun
        exact Option.noConfusion hrun
      | some pr3 =>
        obtain ⟨pdp, s1⟩ := pr3
        cases hg2 : get_next_table pdp (addr / 1073741824 % 512) s1 with
        | none =>
          rw [map_loop_none2 pml4 flags endA n addr s hlt pdp s1 hg3 hg2] at hrun
          exact Option.noConfusion hrun
        | some pr2 =>
          obtain ⟨pd, s2x⟩ := pr2
          rw [map_loop_step pml4 flags endA n addr s hlt pdp s1 hg3 pd s2x hg2]
            at hrun
          have hi4lt : addr / 549755813888 < 512 := by omega
          have hmod3 : addr / 549755813888 % 512 = addr / 549755813888 :=
            Nat.mod_eq_of_lt hi4lt
          have hglue23 : addr / 1073741824 / 512 = addr / 549755813888 := by
            rw [Nat.div_div_eq_div_mul]
          have hglue12 : addr / 2097152 / 512 = addr / 1073741824 := by
            rw [Nat.div_div_eq_div_mul]
          have hglue01 : addr / 4096 / 512 = addr / 2097152 := by
            rw [Nat.div_div_eq_div_mul]
          have hp18 : addr / 1073741824 < 262144 := by omega
          rw [hmod3] at hg3
          obtain ⟨f1, hwf1, hf1l3, hf1l2, hf1l1, hf1hv, hf1lv, hf1other,
            hf1exact⟩ := gnt3 pml4 f s (addr / 549755813888) pdp s1 hwf hi4lt hg3
          have hf1l3p : f1.l3 (addr / 1073741824 / 512) = some pdp := by
            rw [hglue23]; exact hf1l3
          obtain ⟨fm, hwfm, hfml2, hfml3, hfml1, hfmhv, hfmlv, hfmother,
            hfmexact⟩ :=
            gnt2 pml4 f1 s1 (addr / 1073741824) pdp pd s2x hwf1 hp18 hf1l3p hg2
          have hfm3i4 : fm.l3 (addr / 549755813888) = some pdp := by
            rw [hfml3]; exact hf1l3
          have hq27 : addr / 2097152 < 134217728 := by omega
          have hfml2q : fm.l2 (addr / 2097152 / 512) = some pd := by
            rw [hglue12]; exact hfml2
          by_cases hbr : addr % 2097152 = 0 ∧ 2097152 ≤ endA - addr
          · rw [if_pos hbr] at hrun
            have hwf3 := LW_huge pml4 fm s2x (addr / 2097152) pd
              (addr ||| (flags ||| PAGE_PS)) hwfm hq27 hfml2q
            obtain ⟨f3, hf3⟩ : ∃ f3, f3 =
                { fm with
                  l1 := fun j => if j = addr / 2097152 then none else fm.l1 j
                  hv := fun j => if j = addr / 2097152 then
                    some (addr ||| (flags ||| PAGE_PS)) else fm.hv j
                  lv := fun g => if g / 512 = addr / 2097152 then none
                    else fm.lv g } := ⟨_, rfl⟩
            have hwf3' : WF pml4 f3
                (setMem s2x (pd + 8 * (addr / 2097152 % 512))
                  (addr ||| (flags ||| PAGE_PS))) := by
              rw [hf3]; exact hwf3
            have hC3 : Compat f3 (addr + 2097152) endA := by
              intro a ha1 ha2 ha3
              have hane : a / 2097152 ≠ addr / 2097152 := by omega
              rw [hf3]
              show (if a / 2097152 = addr / 2097152 then
                  some (addr ||| (flags ||| PAGE_PS))
                else fm.hv (a / 2097152)) = none
              rw [if_neg hane, hfmhv, hf1hv]
              exact hC a (by omega) ha2 ha3
            obtain ⟨f4, hwf4, hmono34, hfl34, hrun2⟩ :=
              ih (addr + 2097152) f3
                (setMem s2x (pd + 8 * (addr / 2097152 % 512))
                  (addr ||| (flags ||| PAGE_PS))) s2 hwf3' (by omega) hC3 hrun
            have hf4l3 : f4.l3 (addr / 549755813888) = some pdp := by
              apply hmono34.1
              rw [hf3]
              exact hfm3i4
            have hf4l2 : f4.l2 (addr / 1073741824) = some pd := by
              apply hmono34.2
              rw [hf3]
              exact hfml2
            have hf4hvq : f4.hv (addr / 2097152) =
                some (addr ||| (flags ||| PAGE_PS)) := by
              have h1 := hfl34.2.1 (addr / 2097152) (by omega)
              rw [h1, hf3]
              show (if addr / 2097152 = addr / 2097152 then
                  some (addr ||| (flags ||| PAGE_PS))
                else fm.hv (addr / 2097152)) =
                  some (addr ||| (flags ||| PAGE_PS))
              rw [if_pos rfl]
            have hpdpa : 4096 ∣ pdp :=
              hwf4.base_align (TPath.p3 (addr / 549755813888)) pdp hf4l3
            have hpda : 4096 ∣ pd :=
              hwf4.base_align (TPath.p2 (addr / 1073741824)) pd hf4l2
            have hg3r : get_next_table pml4 (addr / 549755813888 % 512) s2 =
                some (pdp, s2) := by
              rw [hmod3]
              exact gnt_present pml4 (addr / 549755813888) pdp s2
                ((hwf4.ent3 (addr / 549755813888) hi4lt).2 pdp hf4l3) hpdpa
            have hf4l3p : f4.l3 (addr / 1073741824 / 512) = some pdp := by
              rw [hglue23]; exact hf4l3
            have hg2r : get_next_table pdp (addr / 1073741824 % 512) s2 =
                some (pd, s2) :=
              gnt_present pdp (addr / 1073741824 % 512) pd s2
                ((hwf4.ent2 (addr / 1073741824) hp18 pdp hf4l3p).2 pd hf4l2) hpda
            have hf4l2q : f4.l2 (addr / 2097152 / 512) = some pd := by
              rw [hglue12]; exact hf4l2
            have hmemv : s2.mem (pd + 8 * (addr / 2097152 % 512)) =
                addr ||| (flags ||| PAGE_PS) :=
              (hwf4.ent1 (addr / 2097152) hq27 pd hf4l2q).2.2 _ hf4hvq
            have hnoop : setMem s2 (pd + 8 * (addr / 2097152 % 512))
                (addr ||| (flags ||| PAGE_PS)) = s2 :=
              setMem_self _ _ _ hmemv
            have hsecond : map_loop pml4 flags endA (n + 1) addr s2 = some s2 := by
              rw [map_loop_step pml4 flags endA n addr s2 hlt pdp s2 hg3r
                pd s2 hg2r, if_pos hbr, hnoop]
              exact hrun2
            refine ⟨f4, hwf4, ?_, ?_, hsecond⟩
            · constructor
              · intro i b hb
                apply hmono34.1
                rw [hf3]
                show fm.l3 i = some b
                rw [hfml3]
                by_cases hi : i = addr / 549755813888
                · obtain ⟨_, _, hfe⟩ := hf1exact b (by rw [← hi]; exact hb)
                  rw [hfe]; exact hb
                · rw [hf1other i hi]; exact hb
              · intro p' b hb
                apply hmono34.2
                rw [hf3]
                show fm.l2 p' = some b
                by_cases hp' : p' = addr / 1073741824
                · obtain ⟨_, _, hfe⟩ := hfmexact b (by
                    rw [hf1l2, ← hp']; exact hb)
                  rw [hfe, hf1l2]; exact hb
                · rw [hfmother p' hp', hf1l2]; exact hb
            · refine ⟨?_, ?_, ?_⟩
              · intro q' b hq' hb
                apply hfl34.1 q' b (by omega)
                rw [hf3]
                show (if q' = addr / 2097152 then none else fm.l1 q') = some b
                rw [if_neg (by omega), hfml1, hf1l1]
                exact hb
              · intro q' hq'
                have h4 := hfl34.2.1 q' (by omega)
                rw [h4, hf3]
                show (if q' = addr / 2097152 then
                    some (addr ||| (flags ||| PAGE_PS))
                  else fm.hv q') = f.hv q'
                rw [if_neg (by omega), hfmhv, hf1hv]
              · intro pg' v hpg' hb
                apply hfl34.2.2 pg' v (by omega)
                rw [hf3]
                show (if pg' / 512 = addr / 2097152 then none else fm.lv pg') =
                  some v
                rw [if_neg (by omega), hfmlv, hf1lv]
                exact hb
          · rw [if_neg hbr] at hrun
            cases hg1 : get_next_table pd (addr / 2097152 % 512) s2x with
            | none =>
              rw [hg1] at hrun
              exact Option.noConfusion hrun
            | some pr1 =>
              obtain ⟨pt, s3x⟩ := pr1
              rw [hg1] at hrun
              have hrun4 : map_loop pml4 flags endA n (addr + 4096)
                  (setMem s3x (pt + 8 * (addr / 4096 % 512))
                    (addr |||
                      (if flags &&& USE_PAT_WC ≠ 0 then
                        (flags &&& 18446744073709547519) ||| PAGE_PAT_4KB
                      else flags))) = some s2 := hrun
              have hfmhvq : fm.hv (addr / 2097152) = none := by
                rw [hfmhv, hf1hv]
                exact hC addr (le_refl addr) hlt hbr
              obtain ⟨fp, hwfp, hfpl1q, hfpl3, hfpl2, hfphv2, hfplv, hfpother,
                hfpexact⟩ :=
                gnt1 pml4 fm s2x (addr / 2097152) pd pt s3x hwfm hq27 hfml2q
                  hfmhvq hg1
              have hpg36 : addr / 4096 < 68719476736 := by omega
              have hfpl1pg : fp.l1 (addr / 4096 / 512) = some pt := by
                rw [hglue01]; exact hfpl1q
              have hwf3 := LW_4kb pml4 fp s3x (addr / 4096) pt
                (addr |||
                  (if flags &&& USE_PAT_WC ≠ 0 then
                    (flags &&& 18446744073709547519) ||| PAGE_PAT_4KB
                  else flags)) hwfp hpg36 hfpl1pg
              obtain ⟨f3, hf3⟩ : ∃ f3, f3 =
                  { fp with lv := fun g =>
                      if g = addr / 4096 then
                        some (addr |||
                          (if flags &&& USE_PAT_WC ≠ 0 then
                            (flags &&& 18446744073709547519) ||| PAGE_PAT_4KB
                          else flags))
                      else fp.lv g } := ⟨_, rfl⟩
              have hwf3' : WF pml4 f3
                  (setMem s3x (pt + 8 * (addr / 4096 % 512))
                    (addr |||
                      (if flags &&& USE_PAT_WC ≠ 0 then
                        (flags &&& 18446744073709547519) ||| PAGE_PAT_4KB
                      else flags))) := by
                rw [hf3]; exact hwf3
              have hC3 : Compat f3 (addr + 4096) endA := by
                intro a ha1 ha2 ha3
                rw [hf3]
                show fp.hv (a / 2097152) = none
                rw [hfphv2, hfmhv, hf1hv]
                exact hC a (by omega) ha2 ha3
              obtain ⟨f4, hwf4, hmono34, hfl34, hrun2⟩ :=
                ih (addr + 4096) f3
                  (setMem s3x (pt + 8 * (addr / 4096 % 512))
                    (addr |||
                      (if flags &&& USE_PAT_WC ≠ 0 then
                        (flags &&& 18446744073709547519) ||| PAGE_PAT_4KB
                      else flags))) s2 hwf3' (by omega) hC3 hrun4
              have hf4l3 : f4.l3 (addr / 549755813888) = some pdp := by
                apply hmono34.1
                rw [hf3]
                show fp.l3 (addr / 549755813888) = some pdp
                rw [hfpl3, hfml3]
                exact hf1l3
              have hf4l2 : f4.l2 (addr / 1073741824) = some pd := by
                apply hmono34.2
                rw [hf3]
                show fp.l2 (addr / 1073741824) = some pd
                rw [hfpl2]
                exact hfml2
              have hf4l1 : f4.l1 (addr / 2097152) = some pt := by
                apply hfl34.1 (addr / 2097152) pt (by omega)
                rw [hf3]
                show fp.l1 (addr / 2097152) = some pt
                exact hfpl1q
              have hf4lv : f4.lv (addr / 4096) =
                  some (addr |||
                    (if flags &&& USE_PAT_WC ≠ 0 then
                      (flags &&& 18446744073709547519) ||| PAGE_PAT_4KB
                    else flags)) := by
                apply hfl34.2.2 (addr / 4096) _ (by omega)
                rw [hf3]
                show (if addr / 4096 = addr / 4096 then
                    some (addr |||
                      (if flags &&& USE_PAT_WC ≠ 0 then
                        (flags &&& 18446744073709547519) ||| PAGE_PAT_4KB
                      else flags))
                  else fp.lv (addr / 4096)) =
                    some (addr |||
                      (if flags &&& USE_PAT_WC ≠ 0 then
                        (flags &&& 18446744073709547519) ||| PAGE_PAT_4KB
                      else flags))
                rw [if_pos rfl]
              have hpdpa : 4096 ∣ pdp :=
                hwf4.base_align (TPath.p3 (addr / 549755813888)) pdp hf4l3
              have hpda : 4096 ∣ pd :=
                hwf4.base_align (TPath.p2 (addr / 1073741824)) pd hf4l2
              have hpta : 4096 ∣ pt :=
                hwf4.base_align (TPath.p1 (addr / 2097152)) pt hf4l1
              have hg3r : get_next_table pml4 (addr / 549755813888 % 512) s2 =
                  some (pdp, s2) := by
                rw [hmod3]
                exact gnt_present pml4 (addr / 549755813888) pdp s2
                  ((hwf4.ent3 (addr / 549755813888) hi4lt).2 pdp hf4l3) hpdpa
              have hf4l3p : f4.l3 (addr / 1073741824 / 512) = some pdp := by
                rw [hglue23]; exact hf4l3
              have hg2r : get_next_table pdp (addr / 1073741824 % 512) s2 =
                  some (pd, s2) :=
                gnt_present pdp (addr / 1073741824 % 512) pd s2
                  ((hwf4.ent2 (addr / 1073741824) hp18 pdp hf4l3p).2 pd hf4l2)
                  hpda
              have hf4l2q : f4.l2 (addr / 2097152 / 512) = some pd := by
                rw [hglue12]; exact hf4l2
              have hg1r : get_next_table pd (addr / 2097152 % 512) s2 =
                  some (pt, s2) :=
                gnt_present pd (addr / 2097152 % 512) pt s2
                  ((hwf4.ent1 (addr / 2097152) hq27 pd hf4l2q).2.1 pt hf4l1)
                  hpta
              have hf4l1pg : f4.l1 (addr / 4096 / 512) = some pt := by
                rw [hglue01]; exact hf4l1
              have hmemv : s2.mem (pt + 8 * (addr / 4096 % 512)) =
                  addr |||
                    (if flags &&& USE_PAT_WC ≠ 0 then
                      (flags &&& 18446744073709547519) ||| PAGE_PAT_4KB
                    else flags) :=
                hwf4.ent0 (addr / 4096) pt _ hf4l1pg hf4lv
              have hnoop := setMem_self s2 _ _ hmemv
              have hsecond : map_loop pml4 flags endA (n + 1) addr s2 =
                  some s2 := by
                rw [map_loop_step pml4 flags endA n addr s2 hlt pdp s2 hg3r
                  pd s2 hg2r, if_neg hbr, hg1r]
                show map_loop pml4 flags endA n (addr + 4096)
                    (setMem s2 (pt + 8 * (addr / 4096 % 512))
                      (addr |||
                        (if flags &&& USE_PAT_WC ≠ 0 then
                          (flags &&& 18446744073709547519) ||| PAGE_PAT_4KB
                        else flags))) = some s2
                rw [hnoop]
                exact hrun2
              refine ⟨f4, hwf4, ?_, ?_, hsecond⟩
              · constructor
                · intro i b hb
                  apply hmono34.1
                  rw [hf3]
                  show fp.l3 i = some b
                  rw [hfpl3, hfml3]
                  by_cases hi : i = addr / 549755813888
                  · obtain ⟨_, _, hfe⟩ := hf1exact b (by rw [← hi]; exact hb)
                    rw [hfe]; exact hb
                  · rw [hf1other i hi]; exact hb
                · intro p' b hb
                  apply hmono34.2
                  rw [hf3]
                  show fp.l2 p' = some b
                  rw [hfpl2]
                  by_cases hp' : p' = addr / 1073741824
                  · obtain ⟨_, _, hfe⟩ := hfmexact b (by
                      rw [hf1l2, ← hp']; exact hb)
                    rw [hfe, hf1l2]; exact hb
                  · rw [hfmother p' hp', hf1l2]; exact hb
              · refine ⟨?_, ?_, ?_⟩
                · intro q' b hq' hb
                  apply hfl34.1 q' b (by omega)
                  rw [hf3]
                  show fp.l1 q' = some b
                  by_cases hq'e : q' = addr / 2097152
                  · obtain ⟨_, _, hfe⟩ := hfpexact b (by
                      rw [hfml1, hf1l1, ← hq'e]; exact hb)
                    rw [hfe, hfml1, hf1l1]; exact hb
                  · rw [hfpother q' hq'e, hfml1, hf1l1]
                    exact hb
                · intro q' hq'
                  have h4 := hfl34.2.1 q' (by omega)
                  rw [h4, hf3]
                  show fp.hv q' = f.hv q'
                  rw [hfphv2, hfmhv, hf1hv]
                · intro pg' v hpg' hb
                  apply hfl34.2.2 pg' v (by omega)
                  rw [hf3]
                  show (if pg' = addr / 4096 then
                      some (addr |||
                        (if flags &&& USE_PAT_WC ≠ 0 then
                          (flags &&& 18446744073709547519) ||| PAGE_PAT_4KB
                        else flags))
                    else fp.lv pg') = some v
                  rw [if_neg (by omega), hfplv, hfmlv, hf1lv]
                  exact hb
    · rw [map_loop_ge pml4 flags endA n addr s hlt] at hrun
      injection hrun with hs2
      subst hs2
      exact ⟨f, hwf, ⟨fun i b hb => hb, fun p b hb => hb⟩,
        ⟨fun q b _ hb => hb, fun q _ => rfl, fun pg v _ hb => hb⟩,
        map_loop_ge pml4 flags endA n addr s hlt⟩

/-- The pristine verification forest: no table links, no leaves. -/
def f0W : Forest :=
  ⟨fun _ => none, fun _ => none, fun _ => none, fun _ => none, fun _ => none⟩

/-- A pristine machine state: zeroed memory, a 256-page heap at 1 MiB,
with the (zeroed) root table at 4096. -/
def s0W : PageState :=
  { mem := fun _ => 0, heapStart := 1048576, heapSize := 1048576 }

theorem wf0W : WF 4096 f0W s0W := by
  refine
    { root_align := ⟨1, rfl⟩
      heap_align := ⟨256, rfl⟩
      root_disj := Or.inl (by decide)
      base_align := ?_
      sub_lt := ?_
      inj := ?_
      dom3 := fun i4 h => absurd rfl h
      dom2 := fun p h => absurd rfl h
      dom1 := ?_
      hv_l1 := fun q _ => rfl
      dom0 := fun pg h => absurd rfl h
      ent3 := fun i4 _ => ⟨fun _ => rfl, fun b3 hb => Option.noConfusion hb⟩
      ent2 := fun p _ b3 hb => Option.noConfusion hb
      ent1 := fun q _ b2 hb => Option.noConfusion hb
      ent0 := fun pg b1 v hb _ => Option.noConfusion hb }
  · intro p b hb
    cases p with
    | root =>
      injection hb with h
      exact h ▸ ⟨1, rfl⟩
    | p3 i => exact Option.noConfusion hb
    | p2 i => exact Option.noConfusion hb
    | p1 i => exact Option.noConfusion hb
  · intro p b hp hb
    cases p with
    | root => exact absurd rfl hp
    | p3 i => exact Option.noConfusion hb
    | p2 i => exact Option.noConfusion hb
    | p1 i => exact Option.noConfusion hb
  · intro p q b hp hq
    cases p with
    | root =>
      cases q with
      | root => rfl
      | p3 i => exact Option.noConfusion hq
      | p2 i => exact Option.noConfusion hq
      | p1 i => exact Option.noConfusion hq
    | p3 i => exact Option.noConfusion hp
    | p2 i => exact Option.noConfusion hp
    | p1 i => exact Option.noConfusion hp
  · intro q h
    rcases h with h | h
    · exact absurd rfl h
    · exact absurd rfl h

/-- Claim C9: `map_range` is idempotent under identical flags.  For a
machine state whose page tables are described by a well-formed forest
(`WF`), a mapped range below 2^48 that does not 4 KiB-remap a registered
huge page (`Compat`), if the first call `map_range(phys, size, flags)`
succeeds with state `s2`, the second identical call returns `some s2`:
it leaves every PML4/PDPT/PD/PT entry and the heap cursor exactly as the
first call left them, and allocates no additional intermediate tables. -/
theorem map_range_idem (pml4 phys size flags : Nat) (f : Forest)
    (s s2 : PageState) (hwf : WF pml4 f s)
    (hps : phys + size ≤ 281474976710656)
    (hC : Compat f (phys / 4096 * 4096)
      ((phys + size + 4095) % U64 / 4096 * 4096))
    (hrun : map_range pml4 phys size flags s = some s2) :
    map_range pml4 phys size flags s2 = some s2 := by
  have hU : U64 = 18446744073709551616 := rfl
  have hrun' : map_loop pml4 flags ((phys + size + 4095) % U64 / 4096 * 4096)
      ((((phys + size + 4095) % U64 / 4096 * 4096) - phys / 4096 * 4096) /
        4096 + 1)
      (phys / 4096 * 4096) s = some s2 := hrun
  obtain ⟨f2, _, _, _, hs⟩ :=
    map_loop_good pml4 flags ((phys + size + 4095) % U64 / 4096 * 4096)
      (by rw [hU]; omega)
      ((((phys + size + 4095) % U64 / 4096 * 4096) - phys / 4096 * 4096) /
        4096 + 1)
      (phys / 4096 * 4096) f s s2 hwf (by omega) hC hrun'
  exact hs

/-- Witness for C9: on a pristine state (zeroed memory, fresh heap, empty
root table at 4096), the first `map_range(0, 4096, 3)` succeeds, and the
second identical call returns its result state unchanged. -/
theorem map_range_idem_witness :
    map_range 4096 0 4096 3 ((map_range 4096 0 4096 3 s0W).getD s0W) =
      some ((map_range 4096 0 4096 3 s0W).getD s0W) := by
  have hsome : (map_range 4096 0 4096 3 s0W).isSome = true := rfl
  have hrun : map_range 4096 0 4096 3 s0W =
      some ((map_range 4096 0 4096 3 s0W).getD s0W) := by
    cases ho : map_range 4096 0 4096 3 s0W with
    | none =>
      rw [ho] at hsome
      exact Bool.noConfusion hsome
    | some x =>
      rfl
  exact map_range_idem 4096 0 4096 3 f0W s0W
    ((map_range 4096 0 4096 3 s0W).getD s0W) wf0W (by decide)
    (fun a _ _ _ => rfl) hrun
